import Mathlib

/-!
# Verification of the anaconda mirror synchronization script

A shallow embedding of `src/anaconda.py` (the tunasync anaconda mirroring
script).  Files on disk are modelled as an association list from path
strings to file contents; the network is modelled by explicit oracle
functions passed to each operation:

* `fetch : String → Option Anaconda.File` models one `curl` invocation
  (`none` means curl exits nonzero, i.e. `subprocess.CalledProcessError`);
  since the remote is modelled as a deterministic function of the URL,
  repeated attempts at the same URL behave identically.
* `head : String → Option Anaconda.HeadResp` models `requests.head`
  (`none` means the request raises).
* `hash : List Nat → String` abstracts `hashlib.md5(...).hexdigest()`.
* the two `random.random()` draws of `sync_installer` are injected as the
  boolean `full_scan` and the coin stream `coins : Nat → Bool`
  (`coins k = true` models `random.random() < 0.95` at the k-th draw).

Every definition mirrors the corresponding Python function line by line;
an `Event` trace records the observable actions (curl invocations, log
lines, HEAD probes) so that temporal claims can be stated.
-/

set_option autoImplicit false

namespace Anaconda

/-- Contents of one file on disk: its bytes and its modification time
(curl's `--remote-time` propagates the remote mtime onto downloads). -/
structure File where
  bytes : List Nat
  mtime : Int
deriving DecidableEq, Repr

/-- A directory, as an association list from path (relative file name) to
file contents.  Unused earlier bindings may be shadowed; all operations
read through `fsFind`. -/
abbrev FS := List (String × File)

/-- Look a path up in the directory (`Path.is_file` / `open` / `stat`). -/
def fsFind : FS → String → Option File
  | [], _ => none
  | e :: fs, p => if e.1 = p then some e.2 else fsFind fs p

/-- `Path.is_file()`. -/
def fsIsFile (fs : FS) (p : String) : Bool :=
  (fsFind fs p).isSome

/-- `Path.unlink()` (also removes shadowed duplicates; a real directory
has no duplicate names). -/
def fsUnlink : FS → String → FS
  | [], _ => []
  | e :: fs, p => if e.1 = p then fsUnlink fs p else e :: fsUnlink fs p

/-- Create or overwrite the file at path `p`. -/
def fsWrite (fs : FS) (p : String) (f : File) : FS :=
  (p, f) :: fsUnlink fs p

/-- `Path.rename`: move the file at `src` onto `dst` (no-op when `src`
does not exist; in the script the source always exists when called). -/
def fsRename (fs : FS) (src dst : String) : FS :=
  match fsFind fs src with
  | some f => fsWrite (fsUnlink fs src) dst f
  | none => fs

/-- The distinct file names present in the directory (what `glob` can
enumerate). -/
def fsPaths (fs : FS) : List String :=
  (fs.map Prod.fst).dedup

@[simp] theorem fsFind_nil (p : String) : fsFind [] p = none := rfl

theorem fsFind_cons (e : String × File) (fs : FS) (p : String) :
    fsFind (e :: fs) p = if e.1 = p then some e.2 else fsFind fs p := rfl

theorem fsFind_fsUnlink (fs : FS) (p q : String) :
    fsFind (fsUnlink fs p) q = if p = q then none else fsFind fs q := by
  induction fs with
  | nil => simp [fsUnlink]
  | cons e fs ih =>
    by_cases hpq : p = q
    · subst hpq
      by_cases hep : e.1 = p <;> simp [fsUnlink, fsFind, hep, ih]
    · by_cases hep : e.1 = p
      · have heq : ¬ e.1 = q := fun h => hpq (hep.symm.trans h)
        simp [fsUnlink, fsFind, hep, heq, ih, hpq]
      · simp [fsUnlink, fsFind, hep, ih, hpq]

theorem fsFind_fsWrite (fs : FS) (p q : String) (f : File) :
    fsFind (fsWrite fs p f) q = if p = q then some f else fsFind fs q := by
  by_cases hpq : p = q <;> simp [fsWrite, fsFind, hpq, fsFind_fsUnlink]

theorem fsIsFile_iff_mem_fsPaths (fs : FS) (p : String) :
    fsIsFile fs p = true ↔ p ∈ fsPaths fs := by
  rw [show p ∈ fsPaths fs ↔ p ∈ fs.map Prod.fst from List.mem_dedup]
  induction fs with
  | nil => simp [fsIsFile]
  | cons e fs ih =>
    by_cases hep : e.1 = p
    · simp [fsIsFile, fsFind, hep]
    · have hpe : ¬ p = e.1 := fun h => hep h.symm
      show (fsFind (e :: fs) p).isSome = true ↔ p ∈ (e :: fs).map Prod.fst
      rw [fsFind_cons, if_neg hep, List.map_cons, List.mem_cons]
      exact ih.trans (by simp [hpe])

theorem fsPaths_nodup (fs : FS) : (fsPaths fs).Nodup :=
  List.nodup_dedup _

/-! ## Observable events

One `Event` per observable action of the script: a `curl` invocation for a
package (`startDL`, the "Downloading …" log line), the "Failed to
download …" error log, the "Skipping …" log line, the "Removing …" log
line of `sync_installer`, a `requests.head` probe, the publication of an
index document into the destination (`shutil.move`), the "Deleting …" log
line of the prune step, and the "Stop the scanning" log line. -/

inductive Event where
  | startDL (filename : String)
  | failLog (filename : String) (err : String)
  | skip (filename : String)
  | removeStale (filename : String)
  | headProbe (filename : String)
  | publishIndex (doc : String)
  | pruneDelete (p : String)
  | stopScan
deriving DecidableEq, Repr

/-- `EXCLUDED_PACKAGES` (anaconda.py line 70). -/
def EXCLUDED_PACKAGES : List String :=
  ["pytorch-nightly", "pytorch-nightly-cpu", "ignite-nightly"]

/-! ## The download / verify primitive -/

/-- `md5_check(file, md5)` (line 91): hash the file's content and compare
with the expected digest.  (`hash` abstracts MD5; the file exists at every
call site.) -/
def md5_check (hash : List Nat → String) (fs : FS) (file : String)
    (md5 : String) : Bool :=
  match fsFind fs file with
  | some f => hash f.bytes = md5
  | none => false

/-- `curl_download(remote_url, dst_file, md5)` (line 102).  `none` models
`subprocess.CalledProcessError` escaping from `sp.check_call` (curl
failed; the function raises and writes nothing observable at `dst_file`).
On a completed transfer the fetched file is written at `dst_file`; if a
non-empty `md5` is given and the freshly written file does not hash to
it, the string `"MD5 mismatch"` is returned.  Note the function never
unlinks `dst_file` in the mismatch case. -/
def curl_download (hash : List Nat → String) (fetch : String → Option File)
    (fs : FS) (remote_url dst_file : String) (md5 : String) :
    Option (FS × Option String) :=
  match fetch remote_url with
  | none => none
  | some f =>
    if md5 ≠ "" ∧ ¬ (md5_check hash (fsWrite fs dst_file f) dst_file md5 = true)
    then some (fsWrite fs dst_file f, some "MD5 mismatch")
    else some (fsWrite fs dst_file f, none)

/-- The body of one iteration of the retry loop shared by `sync_repo`
(lines 166-171) and `sync_installer` (lines 251-256):
`try: err = curl_download(pkg_url, dst_file_wip, md5);
 if err is None: dst_file_wip.rename(dst_file)
 except sp.CalledProcessError: err = 'CalledProcessError'`. -/
def download_attempt (hash : List Nat → String) (fetch : String → Option File)
    (fs : FS) (pkg_url dst_file dst_file_wip : String) (md5 : String) :
    FS × Option String :=
  match curl_download hash fetch fs pkg_url dst_file_wip md5 with
  | none => (fs, some "CalledProcessError")
  | some (fs1, some e) => (fs1, some e)
  | some (fs1, none) => (fsRename fs1 dst_file_wip dst_file, none)

/-- The error produced by one download attempt.  Because the remote is a
deterministic function of the URL, the error does not depend on the
directory state: every attempt at the same URL yields the same error. -/
def attempt_err (hash : List Nat → String) (fetch : String → Option File)
    (pkg_url md5 : String) : Option String :=
  match fetch pkg_url with
  | none => some "CalledProcessError"
  | some f =>
    if md5 ≠ "" ∧ ¬ (hash f.bytes = md5) then some "MD5 mismatch" else none

theorem download_attempt_snd (hash : List Nat → String)
    (fetch : String → Option File) (fs : FS)
    (pkg_url dst_file dst_file_wip : String) (md5 : String) :
    (download_attempt hash fetch fs pkg_url dst_file dst_file_wip md5).2 =
      attempt_err hash fetch pkg_url md5 := by
  unfold download_attempt curl_download attempt_err
  cases hf : fetch pkg_url with
  | none => rfl
  | some f =>
    simp only [md5_check, fsWrite, fsFind_cons, if_pos rfl]
    by_cases h : md5 ≠ "" ∧ ¬ (hash f.bytes = md5) <;> simp [h]

/-- The retry loop `for retry in range(3)` (`sync_repo` lines 164-174,
`sync_installer` lines 248-259): attempt, break on success, log the error
and retry otherwise.  The `Nat` argument is the number of remaining
iterations; the script always starts it at 3. -/
def download_retry (hash : List Nat → String) (fetch : String → Option File)
    (fs : FS) (pkg_url filename dst_file dst_file_wip md5 : String) :
    Nat → FS × List Event
  | 0 => (fs, [])
  | Nat.succ n =>
    match (download_attempt hash fetch fs pkg_url dst_file dst_file_wip
        md5).2 with
    | none =>
      ((download_attempt hash fetch fs pkg_url dst_file dst_file_wip md5).1,
       [Event.startDL filename])
    | some e =>
      ((download_retry hash fetch
          (download_attempt hash fetch fs pkg_url dst_file dst_file_wip
            md5).1 pkg_url filename dst_file dst_file_wip md5 n).1,
       Event.startDL filename :: Event.failLog filename e ::
        (download_retry hash fetch
          (download_attempt hash fetch fs pkg_url dst_file dst_file_wip
            md5).1 pkg_url filename dst_file dst_file_wip md5 n).2)

/-! ## The indexed syncer `sync_repo` -/

/-- Per-package metadata read from `repodata.json`
(`meta['name']`, `meta['size']`, `meta['md5']`). -/
structure Meta where
  name : String
  size : Nat
  md5 : String
deriving DecidableEq, Repr

/-- The parsed `repodata.json` document: the `packages` object and the
optional `packages.conda` object, each an ordered mapping from filename
to metadata. -/
structure RepodataJson where
  packages : List (String × Meta)
  packagesConda : Option (List (String × Meta))
deriving DecidableEq, Repr

/-- Python `dict.update`: values of existing keys are replaced in place,
new keys are appended in order. -/
def dictUpdate (base upd : List (String × Meta)) : List (String × Meta) :=
  (base.map fun kv =>
    match upd.find? (fun u => u.1 = kv.1) with
    | some u => (kv.1, u.2)
    | none => kv)
  ++ upd.filter fun u => ¬ base.any (fun kv => kv.1 = u.1)

/-- `packages = repodata['packages']; if 'packages.conda' in repodata:
packages.update(repodata['packages.conda'])` (lines 139-141). -/
def mergedPackages (rd : RepodataJson) : List (String × Meta) :=
  match rd.packagesConda with
  | some c => dictUpdate rd.packages c
  | none => rd.packages

/-- State threaded through the per-entry loop of `sync_repo`
(lines 142-174): the destination directory, the event trace, the running
`total_size` and the accumulated `remote_filelist`. -/
structure RepoLoopState where
  lfs : FS
  events : List Event
  total : Nat
  filelist : List String
deriving DecidableEq, Repr

/-- One iteration of `for filename, meta in packages.items()` in
`sync_repo` (lines 142-174): skip excluded names; accumulate size and the
remote file list; skip the entry when the local file exists with the
declared size; unlink a local file of a different size; otherwise run the
retry loop. -/
def sync_repo_entry (hash : List Nat → String) (fetch : String → Option File)
    (repo_url : String) (st : RepoLoopState) (entry : String × Meta) :
    RepoLoopState :=
  let filename := entry.1
  let meta := entry.2
  if meta.name ∈ EXCLUDED_PACKAGES then st
  else
    let pkg_url := repo_url ++ "/" ++ filename
    let dst_file_wip := ".downloading." ++ filename
    let total := st.total + meta.size
    let filelist := st.filelist ++ [filename]
    match fsFind st.lfs filename with
    | some f =>
      if meta.size = f.bytes.length then
        ⟨st.lfs, st.events ++ [Event.skip filename], total, filelist⟩
      else
        let lfs1 := fsUnlink st.lfs filename
        let dl := download_retry hash fetch lfs1 pkg_url filename filename
          dst_file_wip meta.md5 3
        ⟨dl.1, st.events ++ dl.2, total, filelist⟩
    | none =>
      let dl := download_retry hash fetch st.lfs pkg_url filename filename
        dst_file_wip meta.md5 3
      ⟨dl.1, st.events ++ dl.2, total, filelist⟩

/-- `String.endsWith`, restated by structural recursion on the character
lists so that it evaluates inside the kernel. -/
def strEndsWith (s suff : String) : Bool :=
  suff.data.isSuffixOf s.data

/-- The local package files (`local_dir.glob('*.tar.bz2')` followed by
`local_dir.glob('*.conda')`, lines 185-188; a `fnmatch` pattern
`*.suffix` matches exactly the names ending in `.suffix`). -/
def localPkgList (lfs : FS) : List String :=
  (fsPaths lfs).filter (fun p => strEndsWith p ".tar.bz2")
  ++ (fsPaths lfs).filter (fun p => strEndsWith p ".conda")

/-- `set(local_filelist) - set(remote_filelist)` (line 189), as a
duplicate-free list. -/
def orphanList (lfs : FS) (remote_filelist : List String) : List String :=
  (localPkgList lfs).dedup.filter fun p => ¬ p ∈ remote_filelist

/-- The prune step of `sync_repo` (lines 182-193, under `if delete:`):
unlink every local package file not in `remote_filelist` and report the
count deleted. -/
def pruneStep (lfs : FS) (remote_filelist : List String) : FS × Nat :=
  ((orphanList lfs remote_filelist).foldl fsUnlink lfs,
   (orphanList lfs remote_filelist).length)

/-- `shutil.move` from the temporary directory into the destination
directory. -/
def moveAcross (src dst : FS) (p : String) : FS × FS :=
  match fsFind src p with
  | some f => (fsUnlink src p, fsWrite dst p f)
  | none => (src, dst)

/-- Result of one `sync_repo` run: the destination directory, the
temporary directory, the event trace, `total_size` (the return value),
the accumulated `remote_filelist` and, when pruning ran, `delete_count`. -/
structure RepoSyncResult where
  lfs : FS
  tmp : FS
  events : List Event
  total_size : Nat
  filelist : List String
  delete_count : Option Nat
deriving Repr

/-- The publication of the fetched index documents into the destination
(lines 176-180): `shutil.move` of `repodata.json` and
`repodata.json.bz2`, plus `current_repodata.json` when it was fetched.
Returns the remaining temporary directory, the updated destination and
the publish events. -/
def publishIndexDocs (tmp lfs : FS) : (FS × FS) × List Event :=
  if fsIsFile (moveAcross (moveAcross tmp lfs "repodata.json").1
      (moveAcross tmp lfs "repodata.json").2 "repodata.json.bz2").1
      "current_repodata.json" then
    (moveAcross (moveAcross (moveAcross tmp lfs "repodata.json").1
        (moveAcross tmp lfs "repodata.json").2 "repodata.json.bz2").1
      (moveAcross (moveAcross tmp lfs "repodata.json").1
        (moveAcross tmp lfs "repodata.json").2 "repodata.json.bz2").2
      "current_repodata.json",
     [Event.publishIndex "repodata.json",
      Event.publishIndex "repodata.json.bz2",
      Event.publishIndex "current_repodata.json"])
  else
    (moveAcross (moveAcross tmp lfs "repodata.json").1
      (moveAcross tmp lfs "repodata.json").2 "repodata.json.bz2",
     [Event.publishIndex "repodata.json",
      Event.publishIndex "repodata.json.bz2"])

/-- The events of the prune step (the "Deleting …" log lines). -/
def pruneEvents (lfs : FS) (remote_filelist : List String) : List Event :=
  (orphanList lfs remote_filelist).map Event.pruneDelete

/-- The body of `sync_repo` from the entry loop onwards (lines 142-197),
given the already-filled temporary directory and the parsed, merged
package mapping: process every entry, publish the index documents, and
prune when `delete` is set. -/
def sync_repo_run (hash : List Nat → String) (fetch : String → Option File)
    (repo_url : String) (lfs tmp2 : FS) (delete : Bool)
    (pkgs : List (String × Meta)) : RepoSyncResult :=
  let st := pkgs.foldl (sync_repo_entry hash fetch repo_url) ⟨lfs, [], 0, []⟩
  let pub := publishIndexDocs tmp2 st.lfs
  if delete then
    ⟨(pruneStep pub.1.2 st.filelist).1, pub.1.1,
     st.events ++ pub.2 ++ pruneEvents pub.1.2 st.filelist,
     st.total, st.filelist, some (pruneStep pub.1.2 st.filelist).2⟩
  else
    ⟨pub.1.2, pub.1.1, st.events ++ pub.2, st.total, st.filelist, none⟩

/-- The temporary directory after the three index-document fetches
(lines 127-132): the two mandatory documents are written, and the
optional `current_repodata.json` fetch is wrapped in
`try: ... except: pass`, so its failure leaves no trace. -/
def repoTmpDir (fetch : String → Option File) (repo_url : String)
    (tmpdir : FS) (fRepodata fBz2 : File) : FS :=
  match fetch (repo_url ++ "/current_repodata.json") with
  | some fCur => fsWrite (fsWrite (fsWrite tmpdir "repodata.json" fRepodata)
      "repodata.json.bz2" fBz2) "current_repodata.json" fCur
  | none => fsWrite (fsWrite tmpdir "repodata.json" fRepodata)
      "repodata.json.bz2" fBz2

/-- `sync_repo(repo_url, local_dir, tmpdir, delete)` (lines 113-197).
`parse` abstracts `json.load`; a `none` result models an exception
escaping the function (failed mandatory index fetch or parse). -/
def sync_repo (hash : List Nat → String) (fetch : String → Option File)
    (parse : List Nat → Option RepodataJson) (repo_url : String)
    (lfs tmpdir : FS) (delete : Bool) : Option RepoSyncResult :=
  match fetch (repo_url ++ "/repodata.json"),
        fetch (repo_url ++ "/repodata.json.bz2") with
  | some fRepodata, some fBz2 =>
    match parse fRepodata.bytes with
    | none => none
    | some repodata =>
      some (sync_repo_run hash fetch repo_url lfs
        (repoTmpDir fetch repo_url tmpdir fRepodata fBz2) delete
        (mergedPackages repodata))
  | _, _ => none

/-! ## The listing syncer `sync_installer` -/

/-- The response of the `requests.head` probe (lines 222-227): the
optional `content-length` header and the `last-modified` header parsed to
a timestamp (`none` when the header is missing, in which case the
`r.headers['last-modified']` lookup raises `KeyError`). -/
structure HeadResp where
  contentLength : Option Nat
  lastModified : Option Int
deriving DecidableEq, Repr

/-- The freshness condition of `sync_installer` (lines 233-235):
`(not len_avail or remote_filesize == local_filesize) and
 remote_date.timestamp() == local_mtime and
 (random.random() < 0.95 or md5_check(dst_file, md5))`.
`coin` is the sampled `random.random() < 0.95` draw and `md5ok` the value
`md5_check` would return (only consulted when the coin is `false`). -/
def installer_fresh (contentLength : Option Nat) (local_filesize : Nat)
    (remoteTs local_mtime : Int) (coin md5ok : Bool) : Bool :=
  (contentLength.isNone || contentLength == some local_filesize)
    && (remoteTs == local_mtime) && (coin || md5ok)

/-- The `for filename, md5 in remote_list()` loop of `sync_installer`
(lines 216-259).  `k` indexes the coin stream: Python only calls
`random.random()` when the size and time conjuncts already hold, so the
index advances exactly then.  A `none` result models an exception
escaping `sync_installer` (a raising `requests.head`, or a missing
`last-modified` header). -/
def sync_installer_loop (hash : List Nat → String)
    (fetch : String → Option File) (head : String → Option HeadResp)
    (coins : Nat → Bool) (repo_url : String) (full_scan : Bool) :
    List (String × String) → FS → Nat → Option (FS × List Event × Nat)
  | [], lfs, k => some (lfs, [], k)
  | (filename, md5) :: rest, lfs, k =>
    let pkg_url := repo_url ++ "/" ++ filename
    let dst_file_wip := ".downloading." ++ filename
    match fsFind lfs filename with
    | some fLocal =>
      match head pkg_url with
      | none => none
      | some r =>
        match r.lastModified with
        | none => none
        | some remoteTs =>
          let sizeTimeOk := (r.contentLength.isNone
              || r.contentLength == some fLocal.bytes.length)
            && (remoteTs == fLocal.mtime)
          let fresh := installer_fresh r.contentLength fLocal.bytes.length
            remoteTs fLocal.mtime (coins k)
            (md5_check hash lfs filename md5)
          let k1 := if sizeTimeOk then k + 1 else k
          if fresh then
            if ¬ full_scan then
              some (lfs, [Event.headProbe filename, Event.skip filename,
                Event.stopScan], k1)
            else
              match sync_installer_loop hash fetch head coins repo_url
                  full_scan rest lfs k1 with
              | none => none
              | some (lfs2, evs, k2) =>
                some (lfs2,
                  Event.headProbe filename :: Event.skip filename :: evs, k2)
          else
            let lfs1 := fsUnlink lfs filename
            let dl := download_retry hash fetch lfs1 pkg_url filename
              filename dst_file_wip md5 3
            match sync_installer_loop hash fetch head coins repo_url
                full_scan rest dl.1 k1 with
            | none => none
            | some (lfs2, evs, k2) =>
              some (lfs2, Event.headProbe filename ::
                Event.removeStale filename :: (dl.2 ++ evs), k2)
    | none =>
      let dl := download_retry hash fetch lfs pkg_url filename filename
        dst_file_wip md5 3
      match sync_installer_loop hash fetch head coins repo_url full_scan
          rest dl.1 k with
      | none => none
      | some (lfs2, evs, k2) => some (lfs2, dl.2 ++ evs, k2)

/-- `sync_installer(repo_url, local_dir)` (lines 200-259).  The listing
(already parsed from the HTML table, newest first) and the two random
draws (`full_scan`, the per-check coins) are injected as arguments. -/
def sync_installer (hash : List Nat → String) (fetch : String → Option File)
    (head : String → Option HeadResp) (coins : Nat → Bool)
    (repo_url : String) (listing : List (String × String))
    (full_scan : Bool) (lfs : FS) : Option (FS × List Event) :=
  match sync_installer_loop hash fetch head coins repo_url full_scan
      listing lfs 0 with
  | none => none
  | some (lfs2, evs, _) => some (lfs2, evs)

/-! ## Event counting helpers -/

/-- Is the event a `curl` invocation for a package file? -/
def Event.isStartDL : Event → Bool
  | Event.startDL _ => true
  | _ => false

/-- Is the event a network fetch (a `curl` invocation or a HEAD probe)? -/
def Event.isNetFetch : Event → Bool
  | Event.startDL _ => true
  | Event.headProbe _ => true
  | _ => false

/-- Is the event the publication of an index document? -/
def Event.isPublish : Event → Bool
  | Event.publishIndex _ => true
  | _ => false

/-- Is the event a per-package action of the indexed syncer's entry loop
(a download attempt, a skip, or a failure log)? -/
def Event.isPkgAction : Event → Bool
  | Event.startDL _ => true
  | Event.skip _ => true
  | Event.failLog _ _ => true
  | _ => false

/-- Number of download attempts recorded for `filename`. -/
def countDL (filename : String) (evs : List Event) : Nat :=
  (evs.filter fun e => e = Event.startDL filename).length

/-- Number of logged download failures recorded for `filename`. -/
def countFail (filename : String) (evs : List Event) : Nat :=
  (evs.filter fun e =>
    match e with
    | Event.failLog g _ => g = filename
    | _ => false).length

/-! ## Lemmas about the download primitive -/

theorem download_attempt_of_raise (hash : List Nat → String)
    (fetch : String → Option File) (fs : FS)
    (pkg_url dst_file dst_file_wip md5 : String)
    (hf : fetch pkg_url = none) :
    download_attempt hash fetch fs pkg_url dst_file dst_file_wip md5 =
      (fs, some "CalledProcessError") := by
  unfold download_attempt curl_download
  rw [hf]

theorem download_attempt_of_mismatch (hash : List Nat → String)
    (fetch : String → Option File) (fs : FS)
    (pkg_url dst_file dst_file_wip md5 : String) (f : File)
    (hmd5 : md5 ≠ "") (hf : fetch pkg_url = some f)
    (hmm : ¬ hash f.bytes = md5) :
    download_attempt hash fetch fs pkg_url dst_file dst_file_wip md5 =
      (fsWrite fs dst_file_wip f, some "MD5 mismatch") := by
  unfold download_attempt curl_download
  rw [hf]
  dsimp only
  have hcond : md5 ≠ "" ∧
      ¬ (md5_check hash (fsWrite fs dst_file_wip f) dst_file_wip md5
        = true) := by
    refine ⟨hmd5, ?_⟩
    simp [md5_check, fsFind_fsWrite, hmm]
  rw [if_pos hcond]

theorem download_attempt_of_success (hash : List Nat → String)
    (fetch : String → Option File) (fs : FS)
    (pkg_url dst_file dst_file_wip md5 : String) (f : File)
    (hf : fetch pkg_url = some f) (hok : md5 = "" ∨ hash f.bytes = md5) :
    download_attempt hash fetch fs pkg_url dst_file dst_file_wip md5 =
      (fsRename (fsWrite fs dst_file_wip f) dst_file_wip dst_file, none) := by
  unfold download_attempt curl_download
  rw [hf]
  dsimp only
  have hcond : ¬ (md5 ≠ "" ∧
      ¬ (md5_check hash (fsWrite fs dst_file_wip f) dst_file_wip md5
        = true)) := by
    rcases hok with h | h
    · exact fun hc => hc.1 h
    · intro hc
      exact hc.2 (by simp [md5_check, fsFind_fsWrite, h])
  rw [if_neg hcond]

/-- A download attempt that is not broken out of by a configured checksum
either failed to fetch, fetched a mismatching file, or succeeded; this
splits the three cases given only the attempt outcome. -/
theorem download_attempt_cases (hash : List Nat → String)
    (fetch : String → Option File) (fs : FS)
    (pkg_url dst_file dst_file_wip md5 : String) :
    (fetch pkg_url = none ∧
      download_attempt hash fetch fs pkg_url dst_file dst_file_wip md5 =
        (fs, some "CalledProcessError"))
    ∨ (∃ f, fetch pkg_url = some f ∧ md5 ≠ "" ∧ ¬ hash f.bytes = md5 ∧
      download_attempt hash fetch fs pkg_url dst_file dst_file_wip md5 =
        (fsWrite fs dst_file_wip f, some "MD5 mismatch"))
    ∨ (∃ f, fetch pkg_url = some f ∧ (md5 = "" ∨ hash f.bytes = md5) ∧
      download_attempt hash fetch fs pkg_url dst_file dst_file_wip md5 =
        (fsRename (fsWrite fs dst_file_wip f) dst_file_wip dst_file,
          none)) := by
  cases hf : fetch pkg_url with
  | none =>
    exact Or.inl ⟨rfl, download_attempt_of_raise hash fetch fs pkg_url
      dst_file dst_file_wip md5 hf⟩
  | some f =>
    by_cases hc : md5 ≠ "" ∧ ¬ hash f.bytes = md5
    · exact Or.inr (Or.inl ⟨f, rfl, hc.1, hc.2,
        download_attempt_of_mismatch hash fetch fs pkg_url dst_file
          dst_file_wip md5 f hc.1 hf hc.2⟩)
    · have hok : md5 = "" ∨ hash f.bytes = md5 := by
        by_cases hm : md5 = ""
        · exact Or.inl hm
        · rcases not_and_or.mp hc with h1 | h2
          · exact absurd hm (by simpa using h1)
          · exact Or.inr (not_not.mp h2)
      exact Or.inr (Or.inr ⟨f, rfl, hok,
        download_attempt_of_success hash fetch fs pkg_url dst_file
          dst_file_wip md5 f hf hok⟩)

theorem fsFind_rename_write_self (fs : FS) (wip dst : String) (f : File) :
    fsFind (fsRename (fsWrite fs wip f) wip dst) dst = some f := by
  unfold fsRename
  rw [fsFind_fsWrite, if_pos rfl, fsFind_fsWrite, if_pos rfl]

theorem fsFind_rename_write_ne (fs : FS) (wip dst q : String) (f : File)
    (hdq : ¬ dst = q) (hwq : ¬ wip = q) :
    fsFind (fsRename (fsWrite fs wip f) wip dst) q = fsFind fs q := by
  unfold fsRename
  rw [fsFind_fsWrite, if_pos rfl, fsFind_fsWrite, if_neg hdq,
    fsFind_fsUnlink, if_neg hwq, fsFind_fsWrite, if_neg hwq]

/-- A failed attempt touches at most the work-in-progress path. -/
theorem download_attempt_fail_find (hash : List Nat → String)
    (fetch : String → Option File) (fs : FS)
    (pkg_url dst_file dst_file_wip md5 e q : String)
    (hfail : (download_attempt hash fetch fs pkg_url dst_file dst_file_wip
      md5).2 = some e)
    (hq : ¬ q = dst_file_wip) :
    fsFind (download_attempt hash fetch fs pkg_url dst_file dst_file_wip
      md5).1 q = fsFind fs q := by
  have hwq : ¬ dst_file_wip = q := fun h => hq h.symm
  rcases download_attempt_cases hash fetch fs pkg_url dst_file dst_file_wip
      md5 with ⟨_, heq⟩ | ⟨f, _, _, _, heq⟩ | ⟨f, _, _, heq⟩
  · rw [heq]
  · rw [heq]
    exact (fsFind_fsWrite fs dst_file_wip q f).trans (if_neg hwq)
  · rw [heq] at hfail
    exact absurd hfail (by simp)

/-- Any attempt touches at most the destination and the work-in-progress
path. -/
theorem download_attempt_find_ne (hash : List Nat → String)
    (fetch : String → Option File) (fs : FS)
    (pkg_url dst_file dst_file_wip md5 q : String)
    (hqd : ¬ q = dst_file) (hqw : ¬ q = dst_file_wip) :
    fsFind (download_attempt hash fetch fs pkg_url dst_file dst_file_wip
      md5).1 q = fsFind fs q := by
  have hwq : ¬ dst_file_wip = q := fun h => hqw h.symm
  have hdq : ¬ dst_file = q := fun h => hqd h.symm
  rcases download_attempt_cases hash fetch fs pkg_url dst_file dst_file_wip
      md5 with ⟨_, heq⟩ | ⟨f, _, _, _, heq⟩ | ⟨f, _, _, heq⟩
  · rw [heq]
  · rw [heq]
    exact (fsFind_fsWrite fs dst_file_wip q f).trans (if_neg hwq)
  · rw [heq]
    exact fsFind_rename_write_ne fs dst_file_wip dst_file q f hdq hwq

/-- The retry loop touches at most the destination and the
work-in-progress path. -/
theorem download_retry_find_ne (hash : List Nat → String)
    (fetch : String → Option File)
    (pkg_url filename dst_file dst_file_wip md5 q : String)
    (hqd : ¬ q = dst_file) (hqw : ¬ q = dst_file_wip) :
    ∀ (n : Nat) (fs : FS),
      fsFind (download_retry hash fetch fs pkg_url filename dst_file
        dst_file_wip md5 n).1 q = fsFind fs q := by
  intro n
  induction n with
  | zero => intro fs; rfl
  | succ n ih =>
    intro fs
    have hne := download_attempt_find_ne hash fetch fs pkg_url dst_file
      dst_file_wip md5 q hqd hqw
    cases ha : (download_attempt hash fetch fs pkg_url dst_file dst_file_wip
        md5).2 with
    | none => simpa [download_retry, ha] using hne
    | some e => simpa [download_retry, ha] using (ih _).trans hne

/-- When every attempt at this URL fails, the retry loop runs each of its
`n` iterations, logging the same failure each time. -/
theorem download_retry_fail (hash : List Nat → String)
    (fetch : String → Option File)
    (pkg_url filename dst_file dst_file_wip md5 e : String)
    (hfail : attempt_err hash fetch pkg_url md5 = some e) :
    ∀ (n : Nat) (fs : FS),
      (download_retry hash fetch fs pkg_url filename dst_file dst_file_wip
        md5 n).2 =
        (List.replicate n [Event.startDL filename,
          Event.failLog filename e]).flatten := by
  intro n
  induction n with
  | zero => intro fs; rfl
  | succ n ih =>
    intro fs
    have hsnd : (download_attempt hash fetch fs pkg_url dst_file
        dst_file_wip md5).2 = some e :=
      (download_attempt_snd hash fetch fs pkg_url dst_file dst_file_wip
        md5).trans hfail
    simp [download_retry, hsnd, ih, List.replicate_succ]

/-- When every attempt fails, any path other than the work-in-progress
path — in particular the destination — keeps what it held before. -/
theorem download_retry_fail_find (hash : List Nat → String)
    (fetch : String → Option File)
    (pkg_url filename dst_file dst_file_wip md5 e q : String)
    (hfail : attempt_err hash fetch pkg_url md5 = some e)
    (hq : ¬ q = dst_file_wip) :
    ∀ (n : Nat) (fs : FS),
      fsFind (download_retry hash fetch fs pkg_url filename dst_file
        dst_file_wip md5 n).1 q = fsFind fs q := by
  intro n
  induction n with
  | zero => intro fs; rfl
  | succ n ih =>
    intro fs
    have hsnd : (download_attempt hash fetch fs pkg_url dst_file
        dst_file_wip md5).2 = some e :=
      (download_attempt_snd hash fetch fs pkg_url dst_file dst_file_wip
        md5).trans hfail
    have hstep := download_attempt_fail_find hash fetch fs pkg_url dst_file
      dst_file_wip md5 e q hsnd hq
    simpa [download_retry, hsnd] using (ih _).trans hstep

/-- When the first attempt succeeds, the loop breaks after one attempt
and the fetched file sits at the destination. -/
theorem download_retry_success (hash : List Nat → String)
    (fetch : String → Option File) (fs : FS)
    (pkg_url filename dst_file dst_file_wip md5 : String) (f : File)
    (n : Nat) (hf : fetch pkg_url = some f)
    (hok : md5 = "" ∨ hash f.bytes = md5) :
    download_retry hash fetch fs pkg_url filename dst_file dst_file_wip md5
        (n + 1) =
      (fsRename (fsWrite fs dst_file_wip f) dst_file_wip dst_file,
        [Event.startDL filename]) := by
  have heq := download_attempt_of_success hash fetch fs pkg_url dst_file
    dst_file_wip md5 f hf hok
  simp [download_retry, heq]

/-! ## Lemmas about the entry loop of `sync_repo` -/

theorem ne_downloading_self (s : String) : ¬ s = ".downloading." ++ s := by
  intro h
  have hlen := congrArg String.length h
  have h13 : (".downloading." : String).length = 13 := rfl
  rw [String.length_append, h13] at hlen
  omega

theorem sync_repo_entry_excluded (hash : List Nat → String)
    (fetch : String → Option File) (repo_url : String) (st : RepoLoopState)
    (entry : String × Meta) (h : entry.2.name ∈ EXCLUDED_PACKAGES) :
    sync_repo_entry hash fetch repo_url st entry = st := by
  simp [sync_repo_entry, h]

theorem sync_repo_entry_skip (hash : List Nat → String)
    (fetch : String → Option File) (repo_url : String) (st : RepoLoopState)
    (entry : String × Meta) (f : File)
    (hexcl : ¬ entry.2.name ∈ EXCLUDED_PACKAGES)
    (hloc : fsFind st.lfs entry.1 = some f)
    (hsize : entry.2.size = f.bytes.length) :
    sync_repo_entry hash fetch repo_url st entry =
      ⟨st.lfs, st.events ++ [Event.skip entry.1],
       st.total + entry.2.size, st.filelist ++ [entry.1]⟩ := by
  simp [sync_repo_entry, hexcl, hloc, hsize]

theorem sync_repo_entry_stale (hash : List Nat → String)
    (fetch : String → Option File) (repo_url : String) (st : RepoLoopState)
    (entry : String × Meta) (f : File)
    (hexcl : ¬ entry.2.name ∈ EXCLUDED_PACKAGES)
    (hloc : fsFind st.lfs entry.1 = some f)
    (hsize : ¬ entry.2.size = f.bytes.length) :
    sync_repo_entry hash fetch repo_url st entry =
      ⟨(download_retry hash fetch (fsUnlink st.lfs entry.1)
          (repo_url ++ "/" ++ entry.1) entry.1 entry.1
          (".downloading." ++ entry.1) entry.2.md5 3).1,
       st.events ++ (download_retry hash fetch (fsUnlink st.lfs entry.1)
          (repo_url ++ "/" ++ entry.1) entry.1 entry.1
          (".downloading." ++ entry.1) entry.2.md5 3).2,
       st.total + entry.2.size, st.filelist ++ [entry.1]⟩ := by
  simp [sync_repo_entry, hexcl, hloc, hsize]

theorem sync_repo_entry_absent (hash : List Nat → String)
    (fetch : String → Option File) (repo_url : String) (st : RepoLoopState)
    (entry : String × Meta)
    (hexcl : ¬ entry.2.name ∈ EXCLUDED_PACKAGES)
    (hloc : fsFind st.lfs entry.1 = none) :
    sync_repo_entry hash fetch repo_url st entry =
      ⟨(download_retry hash fetch st.lfs
          (repo_url ++ "/" ++ entry.1) entry.1 entry.1
          (".downloading." ++ entry.1) entry.2.md5 3).1,
       st.events ++ (download_retry hash fetch st.lfs
          (repo_url ++ "/" ++ entry.1) entry.1 entry.1
          (".downloading." ++ entry.1) entry.2.md5 3).2,
       st.total + entry.2.size, st.filelist ++ [entry.1]⟩ := by
  simp [sync_repo_entry, hexcl, hloc]

/-- Processing one entry touches at most the entry's destination and its
work-in-progress path. -/
theorem sync_repo_entry_find_ne (hash : List Nat → String)
    (fetch : String → Option File) (repo_url : String) (st : RepoLoopState)
    (entry : String × Meta) (q : String)
    (hq1 : ¬ q = entry.1) (hq2 : ¬ q = ".downloading." ++ entry.1) :
    fsFind (sync_repo_entry hash fetch repo_url st entry).lfs q =
      fsFind st.lfs q := by
  by_cases hexcl : entry.2.name ∈ EXCLUDED_PACKAGES
  · rw [sync_repo_entry_excluded hash fetch repo_url st entry hexcl]
  · cases hloc : fsFind st.lfs entry.1 with
    | some f =>
      by_cases hsize : entry.2.size = f.bytes.length
      · rw [sync_repo_entry_skip hash fetch repo_url st entry f hexcl hloc
          hsize]
      · rw [sync_repo_entry_stale hash fetch repo_url st entry f hexcl hloc
          hsize]
        refine (download_retry_find_ne hash fetch _ _ _ _ _ q hq1 hq2 3
          _).trans ?_
        rw [fsFind_fsUnlink, if_neg (fun h => hq1 h.symm)]
    | none =>
      rw [sync_repo_entry_absent hash fetch repo_url st entry hexcl hloc]
      exact download_retry_find_ne hash fetch _ _ _ _ _ q hq1 hq2 3 _

theorem sync_repo_entry_filelist (hash : List Nat → String)
    (fetch : String → Option File) (repo_url : String) (st : RepoLoopState)
    (entry : String × Meta) :
    (sync_repo_entry hash fetch repo_url st entry).filelist = st.filelist
    ∨ (sync_repo_entry hash fetch repo_url st entry).filelist =
        st.filelist ++ [entry.1] := by
  by_cases hexcl : entry.2.name ∈ EXCLUDED_PACKAGES
  · rw [sync_repo_entry_excluded hash fetch repo_url st entry hexcl]
    exact Or.inl rfl
  · cases hloc : fsFind st.lfs entry.1 with
    | some f =>
      by_cases hsize : entry.2.size = f.bytes.length
      · rw [sync_repo_entry_skip hash fetch repo_url st entry f hexcl hloc
          hsize]
        exact Or.inr rfl
      · rw [sync_repo_entry_stale hash fetch repo_url st entry f hexcl hloc
          hsize]
        exact Or.inr rfl
    | none =>
      rw [sync_repo_entry_absent hash fetch repo_url st entry hexcl hloc]
      exact Or.inr rfl

theorem sync_repo_entry_filelist_of_not_excluded (hash : List Nat → String)
    (fetch : String → Option File) (repo_url : String) (st : RepoLoopState)
    (entry : String × Meta)
    (hexcl : ¬ entry.2.name ∈ EXCLUDED_PACKAGES) :
    (sync_repo_entry hash fetch repo_url st entry).filelist =
      st.filelist ++ [entry.1] := by
  cases hloc : fsFind st.lfs entry.1 with
  | some f =>
    by_cases hsize : entry.2.size = f.bytes.length
    · rw [sync_repo_entry_skip hash fetch repo_url st entry f hexcl hloc
        hsize]
    · rw [sync_repo_entry_stale hash fetch repo_url st entry f hexcl hloc
        hsize]
  | none =>
    rw [sync_repo_entry_absent hash fetch repo_url st entry hexcl hloc]

/-- After processing a non-excluded entry whose URL serves a file passing
the checksum, the destination holds either that file or the previously
present file of the declared size. -/
theorem sync_repo_entry_good (hash : List Nat → String)
    (fetch : String → Option File) (repo_url : String) (st : RepoLoopState)
    (entry : String × Meta) (f : File)
    (hexcl : ¬ entry.2.name ∈ EXCLUDED_PACKAGES)
    (hf : fetch (repo_url ++ "/" ++ entry.1) = some f)
    (hok : entry.2.md5 = "" ∨ hash f.bytes = entry.2.md5) :
    fsFind (sync_repo_entry hash fetch repo_url st entry).lfs entry.1 =
        some f
    ∨ ∃ g, fsFind st.lfs entry.1 = some g ∧
        entry.2.size = g.bytes.length ∧
        fsFind (sync_repo_entry hash fetch repo_url st entry).lfs entry.1 =
          some g := by
  cases hloc : fsFind st.lfs entry.1 with
  | some g =>
    by_cases hsize : entry.2.size = g.bytes.length
    · refine Or.inr ⟨g, rfl, hsize, ?_⟩
      rw [sync_repo_entry_skip hash fetch repo_url st entry g hexcl hloc
        hsize]
      exact hloc
    · refine Or.inl ?_
      rw [sync_repo_entry_stale hash fetch repo_url st entry g hexcl hloc
        hsize]
      show fsFind (download_retry hash fetch (fsUnlink st.lfs entry.1)
        (repo_url ++ "/" ++ entry.1) entry.1 entry.1
        (".downloading." ++ entry.1) entry.2.md5 3).1 entry.1 = some f
      rw [download_retry_success hash fetch _ _ _ _ _ _ f 2 hf hok]
      exact fsFind_rename_write_self _ _ _ f
  | none =>
    refine Or.inl ?_
    rw [sync_repo_entry_absent hash fetch repo_url st entry hexcl hloc]
    show fsFind (download_retry hash fetch st.lfs
      (repo_url ++ "/" ++ entry.1) entry.1 entry.1
      (".downloading." ++ entry.1) entry.2.md5 3).1 entry.1 = some f
    rw [download_retry_success hash fetch _ _ _ _ _ _ f 2 hf hok]
    exact fsFind_rename_write_self _ _ _ f

/-! ## Concrete fixtures used by the witnesses and counterexamples -/

/-- A toy digest function standing in for MD5 in concrete runs. -/
def wHash : List Nat → String := fun b => if b = [1] then "h1" else "hx"

def wfA : File := ⟨[1], 10⟩

def wfB : File := ⟨[2, 2], 20⟩

/-- A remote that always serves `wfA`. -/
def wFetchA : String → Option File := fun _ => some wfA

/-- A remote on which every curl invocation fails. -/
def wFetchNone : String → Option File := fun _ => none

/-! ## Claims C1, C2, C7 -/

/-- **C1** (counterexample): a concrete transfer with a non-empty expected
checksum whose fetched bytes hash to a different value: the transfer
does report `"MD5 mismatch"` and does not create the destination, but the
temporary file is NOT discarded — it remains on disk at the
work-in-progress path — so the claim as stated is false. -/
theorem C1_counterexample :
    (download_attempt wHash wFetchA [] "u/f" "f" ".downloading.f" "zz").2
        = some "MD5 mismatch"
    ∧ fsIsFile (download_attempt wHash wFetchA [] "u/f" "f"
        ".downloading.f" "zz").1 ".downloading.f" = true
    ∧ fsIsFile (download_attempt wHash wFetchA [] "u/f" "f"
        ".downloading.f" "zz").1 "f" = false := by
  decide

/-- **C1** (amended): for every transfer invoked with a non-empty expected
checksum, if the digest of the fully-written temporary file differs from
the expected checksum, the transfer reports a checksum mismatch and the
destination path is neither created nor modified; the temporary file is
not deleted, merely never renamed onto the destination — it stays at the
work-in-progress path holding the fetched bytes. -/
theorem C1_mismatch_destination_untouched (hash : List Nat → String)
    (fetch : String → Option File) (fs : FS)
    (pkg_url dst_file dst_file_wip md5 : String) (f : File)
    (hmd5 : md5 ≠ "") (hf : fetch pkg_url = some f)
    (hmm : ¬ hash f.bytes = md5) (hne : ¬ dst_file = dst_file_wip) :
    (download_attempt hash fetch fs pkg_url dst_file dst_file_wip md5).2
        = some "MD5 mismatch"
    ∧ fsFind (download_attempt hash fetch fs pkg_url dst_file dst_file_wip
        md5).1 dst_file = fsFind fs dst_file
    ∧ fsFind (download_attempt hash fetch fs pkg_url dst_file dst_file_wip
        md5).1 dst_file_wip = some f := by
  have heq := download_attempt_of_mismatch hash fetch fs pkg_url dst_file
    dst_file_wip md5 f hmd5 hf hmm
  rw [heq]
  refine ⟨rfl, ?_, ?_⟩
  · rw [fsFind_fsWrite, if_neg (fun h => hne h.symm)]
  · rw [fsFind_fsWrite, if_pos rfl]

theorem C1_witness :
    (download_attempt wHash wFetchA [] "u/f" "f" ".downloading.f" "zz").2
        = some "MD5 mismatch"
    ∧ fsFind (download_attempt wHash wFetchA [] "u/f" "f" ".downloading.f"
        "zz").1 "f" = fsFind [] "f"
    ∧ fsFind (download_attempt wHash wFetchA [] "u/f" "f" ".downloading.f"
        "zz").1 ".downloading.f" = some wfA :=
  C1_mismatch_destination_untouched wHash wFetchA [] "u/f" "f"
    ".downloading.f" "zz" wfA (by decide) rfl (by decide) (by decide)

/-- **C2** (confirmed): for every non-excluded index entry processed by
the indexed syncer, if the destination file exists with exactly the
declared size the entry is skipped — the directory is unchanged and the
only recorded event is the skip, so no download and no checksum
computation happens — and if the destination file exists with a different
size it is removed before the retry loop starts (the loop operates on the
directory with the file already unlinked). -/
theorem C2_size_check_governs_skip_and_removal (hash : List Nat → String)
    (fetch : String → Option File) (repo_url : String) (st : RepoLoopState)
    (filename : String) (meta : Meta) (f : File)
    (hexcl : ¬ meta.name ∈ EXCLUDED_PACKAGES)
    (hloc : fsFind st.lfs filename = some f) :
    (meta.size = f.bytes.length →
      sync_repo_entry hash fetch repo_url st (filename, meta) =
        ⟨st.lfs, st.events ++ [Event.skip filename],
         st.total + meta.size, st.filelist ++ [filename]⟩)
    ∧ (¬ meta.size = f.bytes.length →
      sync_repo_entry hash fetch repo_url st (filename, meta) =
        ⟨(download_retry hash fetch (fsUnlink st.lfs filename)
            (repo_url ++ "/" ++ filename) filename filename
            (".downloading." ++ filename) meta.md5 3).1,
         st.events ++ (download_retry hash fetch (fsUnlink st.lfs filename)
            (repo_url ++ "/" ++ filename) filename filename
            (".downloading." ++ filename) meta.md5 3).2,
         st.total + meta.size, st.filelist ++ [filename]⟩) := by
  constructor
  · intro hsize
    exact sync_repo_entry_skip hash fetch repo_url st (filename, meta) f
      hexcl hloc hsize
  · intro hsize
    exact sync_repo_entry_stale hash fetch repo_url st (filename, meta) f
      hexcl hloc hsize

theorem C2_witness :
    sync_repo_entry wHash wFetchNone "u"
        ⟨[("p.conda", wfA)], [], 0, []⟩ ("p.conda", ⟨"p", 1, "h1"⟩) =
      ⟨[("p.conda", wfA)], [Event.skip "p.conda"], 1, ["p.conda"]⟩ :=
  (C2_size_check_governs_skip_and_removal wHash wFetchNone "u"
    ⟨[("p.conda", wfA)], [], 0, []⟩ "p.conda" ⟨"p", 1, "h1"⟩ wfA
    (by decide) (by decide)).1 (by decide)

/-- **C7** (counterexample): a concrete indexed-syncer entry whose
destination file existed before the sync (with a size different from the
declared one) and whose every download attempt fails: afterwards the
destination file is absent, not "still holding its prior (stale)
content" as the claim states. -/
theorem C7_counterexample :
    fsFind [("p.tar.bz2", wfB)] "p.tar.bz2" = some wfB
    ∧ attempt_err wHash wFetchNone ("u" ++ "/" ++ "p.tar.bz2") "h1"
        = some "CalledProcessError"
    ∧ fsFind (sync_repo_entry wHash wFetchNone "u"
        ⟨[("p.tar.bz2", wfB)], [], 0, []⟩
        ("p.tar.bz2", ⟨"p", 9, "h1"⟩)).lfs "p.tar.bz2" = none := by
  decide

/-- **C7** (amended): for every file whose per-file download errors
persist through the retry bound, no incomplete data reaches the
destination: the retry loop itself never changes the destination path
(first conjunct, common to both syncers), and in the indexed syncer the
destination after the entry is absent when it was absent before, is
unchanged when it existed with the declared size (no download was
attempted), and is absent when it existed with a different size — the
stale file is removed before the download and the failed attempts leave
nothing in its place; the sync continues with the next file. -/
theorem C7_failed_downloads_leave_no_destination (hash : List Nat → String)
    (fetch : String → Option File) (repo_url : String) (st : RepoLoopState)
    (filename : String) (meta : Meta) (e : String)
    (hexcl : ¬ meta.name ∈ EXCLUDED_PACKAGES)
    (hfail : attempt_err hash fetch (repo_url ++ "/" ++ filename) meta.md5
      = some e) :
    (∀ (fs : FS) (pkg_url dst_file dst_file_wip md5 e2 : String) (n : Nat),
      attempt_err hash fetch pkg_url md5 = some e2 →
      ¬ dst_file = dst_file_wip →
      fsFind (download_retry hash fetch fs pkg_url filename dst_file
        dst_file_wip md5 n).1 dst_file = fsFind fs dst_file)
    ∧ fsFind (sync_repo_entry hash fetch repo_url st
        (filename, meta)).lfs filename =
        (match fsFind st.lfs filename with
         | none => none
         | some f => if meta.size = f.bytes.length then some f
            else none) := by
  constructor
  · intro fs pkg_url dst_file dst_file_wip md5 e2 n hf2 hne
    exact download_retry_fail_find hash fetch pkg_url filename dst_file
      dst_file_wip md5 e2 dst_file hf2 hne n fs
  · have hwip : ¬ filename = ".downloading." ++ filename :=
      ne_downloading_self filename
    cases hloc : fsFind st.lfs filename with
    | some f =>
      by_cases hsize : meta.size = f.bytes.length
      · rw [sync_repo_entry_skip hash fetch repo_url st (filename, meta) f
          hexcl hloc hsize]
        simpa [hsize] using hloc
      · rw [sync_repo_entry_stale hash fetch repo_url st (filename, meta) f
          hexcl hloc hsize]
        have hfind := download_retry_fail_find hash fetch
          (repo_url ++ "/" ++ filename) filename filename
          (".downloading." ++ filename) meta.md5 e filename hfail hwip 3
          (fsUnlink st.lfs filename)
        simp only [hfind, fsFind_fsUnlink, if_pos rfl, hsize]
        simp [hsize]
    | none =>
      rw [sync_repo_entry_absent hash fetch repo_url st (filename, meta)
        hexcl hloc]
      have hfind := download_retry_fail_find hash fetch
        (repo_url ++ "/" ++ filename) filename filename
        (".downloading." ++ filename) meta.md5 e filename hfail hwip 3
        st.lfs
      simp [hfind, hloc]

/-! ## Lemmas about the prune step -/

theorem foldl_fsUnlink_find (l : List String) (q : String) :
    ∀ fs : FS, fsFind (l.foldl fsUnlink fs) q =
      if q ∈ l then none else fsFind fs q := by
  induction l with
  | nil => intro fs; simp
  | cons a l ih =>
    intro fs
    rw [List.foldl_cons, ih]
    by_cases hql : q ∈ l
    · simp [hql]
    · by_cases hqa : q = a
      · simp [hqa, hql, fsFind_fsUnlink]
      · rw [fsFind_fsUnlink, if_neg (fun h : a = q => hqa h.symm)]
        simp [hqa, hql]

theorem mem_localPkgList (lfs : FS) (p : String) :
    p ∈ localPkgList lfs ↔
      (fsIsFile lfs p = true ∧ (strEndsWith p ".tar.bz2" = true
        ∨ strEndsWith p ".conda" = true)) := by
  simp only [localPkgList, List.mem_append, List.mem_filter,
    fsIsFile_iff_mem_fsPaths]
  tauto

theorem mem_orphanList (lfs : FS) (rl : List String) (p : String) :
    p ∈ orphanList lfs rl ↔
      (fsIsFile lfs p = true ∧ (strEndsWith p ".tar.bz2" = true
        ∨ strEndsWith p ".conda" = true) ∧ ¬ p ∈ rl) := by
  simp only [orphanList, List.mem_filter, List.mem_dedup, mem_localPkgList,
    decide_eq_true_eq]
  tauto

theorem orphanList_nodup (lfs : FS) (rl : List String) :
    (orphanList lfs rl).Nodup :=
  (List.nodup_dedup _).filter _

theorem pruneStep_find (lfs : FS) (rl : List String) (q : String) :
    fsFind (pruneStep lfs rl).1 q =
      if q ∈ orphanList lfs rl then none else fsFind lfs q :=
  foldl_fsUnlink_find _ q lfs

/-- Files named by the remote file list survive pruning unchanged. -/
theorem pruneStep_preserves_listed (lfs : FS) (rl : List String)
    (q : String) (hq : q ∈ rl) :
    fsFind (pruneStep lfs rl).1 q = fsFind lfs q := by
  rw [pruneStep_find, if_neg]
  intro hmem
  exact ((mem_orphanList lfs rl q).mp hmem).2.2 hq

theorem C7_witness :
    fsFind (sync_repo_entry wHash wFetchNone "u"
        ⟨[("p.tar.bz2", wfB)], [], 0, []⟩
        ("p.tar.bz2", ⟨"p", 9, "h1"⟩)).lfs "p.tar.bz2" =
      (match fsFind [("p.tar.bz2", wfB)] "p.tar.bz2" with
       | none => none
       | some f => if (9 : Nat) = f.bytes.length then some f else none) :=
  (C7_failed_downloads_leave_no_destination wHash wFetchNone "u"
    ⟨[("p.tar.bz2", wfB)], [], 0, []⟩ "p.tar.bz2" ⟨"p", 9, "h1"⟩
    "CalledProcessError" (by decide) (by decide)).2

/-- The destination directory of the concrete pruning example:
`{a, b, c}` on disk. -/
def wPruneFS : FS :=
  [("a.tar.bz2", wfA), ("b.conda", wfB), ("c.tar.bz2", wfA)]

/-- **C5** (confirmed): after the entries are processed, the prune step
deletes exactly the locally present package files (names ending in
`.tar.bz2` or `.conda`) that are not in the remote file list built from
the freshly fetched index, leaves every other path untouched, and
reports as the deletion count the number of such orphans; in the
concrete `{a, b, c}` versus `{a, b}` instance exactly `c` is deleted and
the count is `1`. -/
theorem C5_prune_deletes_exactly_orphans (lfs : FS) (rl : List String) :
    (∀ q, fsIsFile (pruneStep lfs rl).1 q = true ↔
      (fsIsFile lfs q = true ∧
        ¬ ((strEndsWith q ".tar.bz2" = true ∨ strEndsWith q ".conda" = true)
            ∧ ¬ q ∈ rl)))
    ∧ (∀ q, ¬ ((strEndsWith q ".tar.bz2" = true
          ∨ strEndsWith q ".conda" = true) ∧ ¬ q ∈ rl) →
        fsFind (pruneStep lfs rl).1 q = fsFind lfs q)
    ∧ (pruneStep lfs rl).2 =
        ((fsPaths lfs).filter (fun p =>
          (strEndsWith p ".tar.bz2" || strEndsWith p ".conda")
            && !(decide (p ∈ rl)))).length := by
  refine ⟨?_, ?_, ?_⟩
  · intro q
    show (fsFind (pruneStep lfs rl).1 q).isSome = true ↔ _
    rw [pruneStep_find]
    by_cases ho : q ∈ orphanList lfs rl
    · have hm := (mem_orphanList lfs rl q).mp ho
      simp only [if_pos ho, Option.isSome_none]
      constructor
      · intro h; exact absurd h (by simp)
      · intro h; exact absurd ⟨hm.2.1, hm.2.2⟩ h.2
    · have hno := ho
      rw [mem_orphanList] at hno
      push_neg at hno
      rw [if_neg ho]
      constructor
      · intro hf
        exact ⟨hf, fun hc => hc.2 (hno hf hc.1)⟩
      · exact fun h => h.1
  · intro q hq
    rw [pruneStep_find, if_neg]
    intro hmem
    have hm := (mem_orphanList lfs rl q).mp hmem
    exact hq ⟨hm.2.1, hm.2.2⟩
  · have h1 := orphanList_nodup lfs rl
    have h2 : ((fsPaths lfs).filter (fun p =>
        (strEndsWith p ".tar.bz2" || strEndsWith p ".conda")
          && !(decide (p ∈ rl)))).Nodup :=
      (fsPaths_nodup lfs).filter _
    have hperm := (List.perm_ext_iff_of_nodup h1 h2).mpr ?_
    · exact hperm.length_eq
    · intro a
      rw [mem_orphanList, List.mem_filter, ← fsIsFile_iff_mem_fsPaths]
      simp only [Bool.and_eq_true, Bool.or_eq_true, Bool.not_eq_true',
        decide_eq_false_iff_not]

theorem C5_witness :
    (fsIsFile (pruneStep wPruneFS ["a.tar.bz2", "b.conda"]).1 "c.tar.bz2"
        = true ↔
      (fsIsFile wPruneFS "c.tar.bz2" = true ∧
        ¬ ((strEndsWith "c.tar.bz2" ".tar.bz2" = true
            ∨ strEndsWith "c.tar.bz2" ".conda" = true)
          ∧ ¬ "c.tar.bz2" ∈ ["a.tar.bz2", "b.conda"])))
    ∧ (pruneStep wPruneFS ["a.tar.bz2", "b.conda"]).2 =
        ((fsPaths wPruneFS).filter (fun p =>
          (strEndsWith p ".tar.bz2" || strEndsWith p ".conda")
            && !(decide (p ∈ ["a.tar.bz2", "b.conda"])))).length :=
  ⟨(C5_prune_deletes_exactly_orphans wPruneFS
      ["a.tar.bz2", "b.conda"]).1 "c.tar.bz2",
   (C5_prune_deletes_exactly_orphans wPruneFS ["a.tar.bz2", "b.conda"]).2.2⟩

/-! ## Lemmas about the whole entry fold of `sync_repo` -/

theorem foldl_entry_find_ne (hash : List Nat → String)
    (fetch : String → Option File) (repo_url : String)
    (pkgs : List (String × Meta)) :
    ∀ (st : RepoLoopState) (q : String),
      (∀ p ∈ pkgs, ¬ q = p.1 ∧ ¬ q = ".downloading." ++ p.1) →
      fsFind (pkgs.foldl (sync_repo_entry hash fetch repo_url) st).lfs q =
        fsFind st.lfs q := by
  induction pkgs with
  | nil => intro st q _; rfl
  | cons e pkgs ih =>
    intro st q hq
    rw [List.foldl_cons]
    have he := hq e (List.mem_cons_self e pkgs)
    exact (ih _ q (fun p hp => hq p (List.mem_cons_of_mem e hp))).trans
      (sync_repo_entry_find_ne hash fetch repo_url st e q he.1 he.2)

theorem foldl_entry_filelist_mono (hash : List Nat → String)
    (fetch : String → Option File) (repo_url : String)
    (pkgs : List (String × Meta)) :
    ∀ (st : RepoLoopState) (q : String), q ∈ st.filelist →
      q ∈ (pkgs.foldl (sync_repo_entry hash fetch repo_url) st).filelist := by
  induction pkgs with
  | nil => intro st q h; exact h
  | cons e pkgs ih =>
    intro st q h
    rw [List.foldl_cons]
    apply ih
    rcases sync_repo_entry_filelist hash fetch repo_url st e with heq | heq
    · rw [heq]; exact h
    · rw [heq]; exact List.mem_append_left _ h

/-- Every non-excluded entry lands in the remote file list, whatever its
download outcome. -/
theorem foldl_entry_filelist_mem (hash : List Nat → String)
    (fetch : String → Option File) (repo_url : String)
    (pkgs : List (String × Meta)) :
    ∀ (st : RepoLoopState) (e : String × Meta), e ∈ pkgs →
      ¬ e.2.name ∈ EXCLUDED_PACKAGES →
      e.1 ∈ (pkgs.foldl (sync_repo_entry hash fetch repo_url) st).filelist := by
  induction pkgs with
  | nil => intro st e he; cases he
  | cons p pkgs ih =>
    intro st e he hexcl
    rw [List.foldl_cons]
    rcases List.mem_cons.mp he with heq | hmem
    · subst heq
      apply foldl_entry_filelist_mono
      rw [sync_repo_entry_filelist_of_not_excluded hash fetch repo_url st e
        hexcl]
      exact List.mem_append_right _ (List.mem_singleton_self _)
    · exact ih _ e hmem hexcl

theorem download_retry_events_pkg (hash : List Nat → String)
    (fetch : String → Option File)
    (pkg_url filename dst_file dst_file_wip md5 : String) :
    ∀ (n : Nat) (fs : FS),
      ((download_retry hash fetch fs pkg_url filename dst_file dst_file_wip
        md5 n).2).all Event.isPkgAction = true := by
  intro n
  induction n with
  | zero => intro fs; rfl
  | succ n ih =>
    intro fs
    cases ha : (download_attempt hash fetch fs pkg_url dst_file dst_file_wip
        md5).2 with
    | none => simp [download_retry, ha, Event.isPkgAction]
    | some e => simp [download_retry, ha, Event.isPkgAction, ih]

theorem sync_repo_entry_events_append (hash : List Nat → String)
    (fetch : String → Option File) (repo_url : String) (st : RepoLoopState)
    (entry : String × Meta) :
    ∃ tail, (sync_repo_entry hash fetch repo_url st entry).events =
        st.events ++ tail ∧ tail.all Event.isPkgAction = true := by
  by_cases hexcl : entry.2.name ∈ EXCLUDED_PACKAGES
  · rw [sync_repo_entry_excluded hash fetch repo_url st entry hexcl]
    exact ⟨[], by simp⟩
  · cases hloc : fsFind st.lfs entry.1 with
    | some f =>
      by_cases hsize : entry.2.size = f.bytes.length
      · rw [sync_repo_entry_skip hash fetch repo_url st entry f hexcl hloc
          hsize]
        exact ⟨[Event.skip entry.1], rfl, by simp [Event.isPkgAction]⟩
      · rw [sync_repo_entry_stale hash fetch repo_url st entry f hexcl hloc
          hsize]
        exact ⟨_, rfl, download_retry_events_pkg hash fetch _ _ _ _ _ 3 _⟩
    | none =>
      rw [sync_repo_entry_absent hash fetch repo_url st entry hexcl hloc]
      exact ⟨_, rfl, download_retry_events_pkg hash fetch _ _ _ _ _ 3 _⟩

theorem foldl_entry_events_append (hash : List Nat → String)
    (fetch : String → Option File) (repo_url : String)
    (pkgs : List (String × Meta)) :
    ∀ st : RepoLoopState,
      ∃ tail, (pkgs.foldl (sync_repo_entry hash fetch repo_url) st).events =
        st.events ++ tail ∧ tail.all Event.isPkgAction = true := by
  induction pkgs with
  | nil => intro st; exact ⟨[], by simp⟩
  | cons e pkgs ih =>
    intro st
    obtain ⟨t1, h1, hp1⟩ := sync_repo_entry_events_append hash fetch
      repo_url st e
    obtain ⟨t2, h2, hp2⟩ := ih (sync_repo_entry hash fetch repo_url st e)
    refine ⟨t1 ++ t2, ?_, ?_⟩
    · rw [List.foldl_cons, h2, h1, List.append_assoc]
    · simp [List.all_append, hp1, hp2]

/-- Presence of a well-served entry's file after the whole fold: the
destination ends up holding the fetched file, or a pre-existing file of
the declared size. -/
theorem foldl_entry_good_find (hash : List Nat → String)
    (fetch : String → Option File) (repo_url : String)
    (pkgs : List (String × Meta)) :
    ∀ (st : RepoLoopState) (e : String × Meta) (f : File),
      e ∈ pkgs →
      ¬ e.2.name ∈ EXCLUDED_PACKAGES →
      fetch (repo_url ++ "/" ++ e.1) = some f →
      (e.2.md5 = "" ∨ hash f.bytes = e.2.md5) →
      (pkgs.map Prod.fst).Nodup →
      (∀ p ∈ pkgs, ¬ e.1 = ".downloading." ++ p.1) →
      (fsFind (pkgs.foldl (sync_repo_entry hash fetch repo_url) st).lfs e.1
          = some f
       ∨ ∃ g, e.2.size = g.bytes.length ∧
          fsFind (pkgs.foldl (sync_repo_entry hash fetch repo_url) st).lfs
            e.1 = some g) := by
  induction pkgs with
  | nil => intro st e f he; cases he
  | cons p pkgs ih =>
    intro st e f he hexcl hf hok hnodup hwip
    rw [List.foldl_cons]
    rcases List.mem_cons.mp he with heq | hmem
    · subst heq
      have hnodup1 : (e.1 :: pkgs.map Prod.fst).Nodup := by
        rw [List.map_cons] at hnodup; exact hnodup
      have hhead : ¬ e.1 ∈ pkgs.map Prod.fst :=
        (List.nodup_cons.mp hnodup1).1
      have hpres : ∀ q ∈ pkgs, ¬ e.1 = q.1 ∧
          ¬ e.1 = ".downloading." ++ q.1 := by
        intro q hq
        refine ⟨?_, hwip q (List.mem_cons_of_mem e hq)⟩
        intro heq1
        exact hhead (heq1 ▸ List.mem_map_of_mem Prod.fst hq)
      have hkeep := foldl_entry_find_ne hash fetch repo_url pkgs
        (sync_repo_entry hash fetch repo_url st e) e.1 hpres
      rcases sync_repo_entry_good hash fetch repo_url st e f hexcl hf hok
        with hl | ⟨g, _, hsz, hr⟩
      · exact Or.inl (hkeep.trans hl)
      · exact Or.inr ⟨g, hsz, hkeep.trans hr⟩
    · refine ih _ e f hmem hexcl hf hok ?_
        (fun q hq => hwip q (List.mem_cons_of_mem p hq))
      rw [List.map_cons] at hnodup
      exact (List.nodup_cons.mp hnodup).2

/-- When every non-excluded entry's file is already present with the
declared size, the fold changes nothing on disk and records no download
attempt. -/
theorem foldl_entry_all_skip (hash : List Nat → String)
    (fetch : String → Option File) (repo_url : String)
    (pkgs : List (String × Meta)) :
    ∀ st : RepoLoopState,
      (∀ e ∈ pkgs, ¬ e.2.name ∈ EXCLUDED_PACKAGES →
        ∃ g, fsFind st.lfs e.1 = some g ∧ e.2.size = g.bytes.length) →
      (pkgs.foldl (sync_repo_entry hash fetch repo_url) st).lfs = st.lfs
      ∧ ((pkgs.foldl (sync_repo_entry hash fetch repo_url) st).events.filter
          Event.isStartDL) = st.events.filter Event.isStartDL := by
  induction pkgs with
  | nil => intro st _; exact ⟨rfl, rfl⟩
  | cons e pkgs ih =>
    intro st hgood
    rw [List.foldl_cons]
    by_cases hexcl : e.2.name ∈ EXCLUDED_PACKAGES
    · rw [sync_repo_entry_excluded hash fetch repo_url st e hexcl]
      exact ih st (fun p hp => hgood p (List.mem_cons_of_mem e hp))
    · obtain ⟨g, hloc, hsize⟩ := hgood e (List.mem_cons_self e pkgs) hexcl
      rw [sync_repo_entry_skip hash fetch repo_url st e g hexcl hloc hsize]
      have hstep := ih ⟨st.lfs, st.events ++ [Event.skip e.1],
        st.total + e.2.size, st.filelist ++ [e.1]⟩
        (fun p hp hx => hgood p (List.mem_cons_of_mem e hp) hx)
      refine ⟨hstep.1, hstep.2.trans ?_⟩
      simp [List.filter_append, Event.isStartDL]

/-! ## Lemmas about the index publication stage -/

theorem moveAcross_dst_find_ne (src dst : FS) (p q : String)
    (hpq : ¬ p = q) :
    fsFind (moveAcross src dst p).2 q = fsFind dst q := by
  unfold moveAcross
  cases hf : fsFind src p with
  | some f =>
    dsimp only
    rw [fsFind_fsWrite, if_neg hpq]
  | none => rfl

theorem moveAcross_dst_isFile_mono (src dst : FS) (p q : String)
    (h : fsIsFile dst q = true) :
    fsIsFile (moveAcross src dst p).2 q = true := by
  unfold moveAcross
  cases hf : fsFind src p with
  | some f =>
    show (fsFind (fsWrite dst p f) q).isSome = true
    rw [fsFind_fsWrite]
    by_cases hpq : p = q
    · simp [hpq]
    · rw [if_neg hpq]; exact h
  | none => exact h

theorem publishIndexDocs_find_ne (tmp lfs : FS) (q : String)
    (h1 : ¬ "repodata.json" = q) (h2 : ¬ "repodata.json.bz2" = q)
    (h3 : ¬ "current_repodata.json" = q) :
    fsFind (publishIndexDocs tmp lfs).1.2 q = fsFind lfs q := by
  unfold publishIndexDocs
  by_cases hc : fsIsFile (moveAcross (moveAcross tmp lfs "repodata.json").1
      (moveAcross tmp lfs "repodata.json").2 "repodata.json.bz2").1
      "current_repodata.json" = true
  · rw [if_pos hc]
    dsimp only
    rw [moveAcross_dst_find_ne _ _ _ _ h3, moveAcross_dst_find_ne _ _ _ _ h2,
      moveAcross_dst_find_ne _ _ _ _ h1]
  · rw [if_neg hc]
    dsimp only
    rw [moveAcross_dst_find_ne _ _ _ _ h2, moveAcross_dst_find_ne _ _ _ _ h1]

theorem publishIndexDocs_isFile_mono (tmp lfs : FS) (q : String)
    (h : fsIsFile lfs q = true) :
    fsIsFile (publishIndexDocs tmp lfs).1.2 q = true := by
  unfold publishIndexDocs
  by_cases hc : fsIsFile (moveAcross (moveAcross tmp lfs "repodata.json").1
      (moveAcross tmp lfs "repodata.json").2 "repodata.json.bz2").1
      "current_repodata.json" = true
  · rw [if_pos hc]
    exact moveAcross_dst_isFile_mono _ _ _ _
      (moveAcross_dst_isFile_mono _ _ _ _
        (moveAcross_dst_isFile_mono _ _ _ _ h))
  · rw [if_neg hc]
    exact moveAcross_dst_isFile_mono _ _ _ _
      (moveAcross_dst_isFile_mono _ _ _ _ h)

theorem publishIndexDocs_events (tmp lfs : FS) :
    ∀ ev ∈ (publishIndexDocs tmp lfs).2, Event.isPublish ev = true := by
  intro ev hev
  unfold publishIndexDocs at hev
  by_cases hc : fsIsFile (moveAcross (moveAcross tmp lfs "repodata.json").1
      (moveAcross tmp lfs "repodata.json").2 "repodata.json.bz2").1
      "current_repodata.json" = true
  · rw [if_pos hc] at hev
    simp only [List.mem_cons, List.not_mem_nil, or_false] at hev
    rcases hev with rfl | rfl | rfl <;> rfl
  · rw [if_neg hc] at hev
    simp only [List.mem_cons, List.not_mem_nil, or_false] at hev
    rcases hev with rfl | rfl <;> rfl

/-! ## Lemmas about the `sync_installer` entry loop -/

/-- An existing destination file whose HEAD probe raises aborts the whole
scan: the probe is not guarded by any retry. -/
theorem sync_installer_loop_head_raise (hash : List Nat → String)
    (fetch : String → Option File) (head : String → Option HeadResp)
    (coins : Nat → Bool) (repo_url : String) (full_scan : Bool)
    (filename md5 : String) (rest : List (String × String)) (lfs : FS)
    (k : Nat) (fLocal : File)
    (hloc : fsFind lfs filename = some fLocal)
    (hhead : head (repo_url ++ "/" ++ filename) = none) :
    sync_installer_loop hash fetch head coins repo_url full_scan
      ((filename, md5) :: rest) lfs k = none := by
  simp [sync_installer_loop, hloc, hhead]

/-- An entry with no local file runs the retry loop and continues with
the remaining entries. -/
theorem sync_installer_loop_absent (hash : List Nat → String)
    (fetch : String → Option File) (head : String → Option HeadResp)
    (coins : Nat → Bool) (repo_url : String) (full_scan : Bool)
    (filename md5 : String) (rest : List (String × String)) (lfs : FS)
    (k : Nat) (lfs2 : FS) (evs : List Event) (k2 : Nat)
    (hloc : fsFind lfs filename = none)
    (hrest : sync_installer_loop hash fetch head coins repo_url full_scan
      rest (download_retry hash fetch lfs (repo_url ++ "/" ++ filename)
        filename filename (".downloading." ++ filename) md5 3).1 k =
      some (lfs2, evs, k2)) :
    sync_installer_loop hash fetch head coins repo_url full_scan
        ((filename, md5) :: rest) lfs k =
      some (lfs2, (download_retry hash fetch lfs
        (repo_url ++ "/" ++ filename) filename filename
        (".downloading." ++ filename) md5 3).2 ++ evs, k2) := by
  simp [sync_installer_loop, hloc, hrest]

/-- A fresh entry in a non-full-scan run skips, stops the scan, and
returns with the directory unchanged: no event concerns any older
entry. -/
theorem sync_installer_loop_fresh_stop (hash : List Nat → String)
    (fetch : String → Option File) (head : String → Option HeadResp)
    (coins : Nat → Bool) (repo_url : String) (filename md5 : String)
    (rest : List (String × String)) (lfs : FS) (k : Nat) (fLocal : File)
    (r : HeadResp) (ts : Int)
    (hloc : fsFind lfs filename = some fLocal)
    (hhead : head (repo_url ++ "/" ++ filename) = some r)
    (hlm : r.lastModified = some ts)
    (hfresh : installer_fresh r.contentLength fLocal.bytes.length ts
      fLocal.mtime (coins k) (md5_check hash lfs filename md5) = true) :
    sync_installer_loop hash fetch head coins repo_url false
        ((filename, md5) :: rest) lfs k =
      some (lfs, [Event.headProbe filename, Event.skip filename,
        Event.stopScan], k + 1) := by
  have hst : ((r.contentLength.isNone
      || r.contentLength == some fLocal.bytes.length)
      && (ts == fLocal.mtime)) = true := by
    have hh := hfresh
    unfold installer_fresh at hh
    exact ((Bool.and_eq_true _ _) ▸ hh).1
  simp [sync_installer_loop, hloc, hhead, hlm, hfresh, hst]

/-! ## Claims C4, C8, C3, C10 -/

/-- **C4** (confirmed): for a file whose every download attempt fails
(the attempt error is the same on each try since the remote is a
function of the URL), the retry loop performs exactly 3 attempts,
logging each failure; the indexed syncer still returns normally given
the mandatory index documents (per-file failures never abort it), and
the listing syncer's loop proceeds to the remaining entries after the
third failure. -/
theorem C4_three_attempts_then_continue (hash : List Nat → String)
    (fetch : String → Option File)
    (parse : List Nat → Option RepodataJson) (repo_url filename md5 e :
    String) (lfs tmpdir : FS) (delete : Bool)
    (hfail : attempt_err hash fetch (repo_url ++ "/" ++ filename) md5 =
      some e) :
    (∀ fs : FS,
      (download_retry hash fetch fs (repo_url ++ "/" ++ filename) filename
        filename (".downloading." ++ filename) md5 3).2 =
      [Event.startDL filename, Event.failLog filename e,
       Event.startDL filename, Event.failLog filename e,
       Event.startDL filename, Event.failLog filename e])
    ∧ (∀ fs : FS,
      countDL filename (download_retry hash fetch fs
        (repo_url ++ "/" ++ filename) filename filename
        (".downloading." ++ filename) md5 3).2 = 3
      ∧ countFail filename (download_retry hash fetch fs
        (repo_url ++ "/" ++ filename) filename filename
        (".downloading." ++ filename) md5 3).2 = 3)
    ∧ (∀ (fR fB : File) (rd : RepodataJson),
      fetch (repo_url ++ "/repodata.json") = some fR →
      fetch (repo_url ++ "/repodata.json.bz2") = some fB →
      parse fR.bytes = some rd →
      sync_repo hash fetch parse repo_url lfs tmpdir delete =
        some (sync_repo_run hash fetch repo_url lfs
          (repoTmpDir fetch repo_url tmpdir fR fB) delete
          (mergedPackages rd)))
    ∧ (∀ (head : String → Option HeadResp) (coins : Nat → Bool)
        (full_scan : Bool) (rest : List (String × String)) (lfs2 lfs3 : FS)
        (evs : List Event) (k k2 : Nat),
      fsFind lfs2 filename = none →
      sync_installer_loop hash fetch head coins repo_url full_scan rest
        (download_retry hash fetch lfs2 (repo_url ++ "/" ++ filename)
          filename filename (".downloading." ++ filename) md5 3).1 k =
        some (lfs3, evs, k2) →
      sync_installer_loop hash fetch head coins repo_url full_scan
          ((filename, md5) :: rest) lfs2 k =
        some (lfs3, (download_retry hash fetch lfs2
          (repo_url ++ "/" ++ filename) filename filename
          (".downloading." ++ filename) md5 3).2 ++ evs, k2)) := by
  have hev : ∀ fs : FS,
      (download_retry hash fetch fs (repo_url ++ "/" ++ filename) filename
        filename (".downloading." ++ filename) md5 3).2 =
      [Event.startDL filename, Event.failLog filename e,
       Event.startDL filename, Event.failLog filename e,
       Event.startDL filename, Event.failLog filename e] := by
    intro fs
    rw [download_retry_fail hash fetch (repo_url ++ "/" ++ filename)
      filename filename (".downloading." ++ filename) md5 e hfail 3 fs]
    rfl
  refine ⟨hev, ?_, ?_, ?_⟩
  · intro fs
    rw [hev fs]
    constructor <;> simp [countDL, countFail]
  · intro fR fB rd h1 h2 h3
    simp only [sync_repo, h1, h2, h3]
  · intro head coins full_scan rest lfs2 lfs3 evs k k2 hloc hrest
    exact sync_installer_loop_absent hash fetch head coins repo_url
      full_scan filename md5 rest lfs2 k lfs3 evs k2 hloc hrest

/-- The remote used by the concrete indexed-sync witnesses: the two
mandatory index documents exist, every package fetch fails. -/
def wFetchIdx : String → Option File := fun u =>
  if u = "u/repodata.json" then some wfA
  else if u = "u/repodata.json.bz2" then some wfA
  else none

/-- A parsed index with one ordinary package entry. -/
def wParse : List Nat → Option RepodataJson :=
  fun _ => some ⟨[("p.conda", ⟨"p", 2, "h1"⟩)], none⟩

theorem C4_witness :
    (download_retry wHash wFetchIdx [] ("u" ++ "/" ++ "p.conda") "p.conda"
        "p.conda" (".downloading." ++ "p.conda") "h1" 3).2 =
      [Event.startDL "p.conda",
       Event.failLog "p.conda" "CalledProcessError",
       Event.startDL "p.conda",
       Event.failLog "p.conda" "CalledProcessError",
       Event.startDL "p.conda",
       Event.failLog "p.conda" "CalledProcessError"]
    ∧ sync_repo wHash wFetchIdx wParse "u" [] [] false =
      some (sync_repo_run wHash wFetchIdx "u" []
        (repoTmpDir wFetchIdx "u" [] wfA wfA) false
        (mergedPackages ⟨[("p.conda", ⟨"p", 2, "h1"⟩)], none⟩)) :=
  ⟨(C4_three_attempts_then_continue wHash wFetchIdx wParse "u" "p.conda"
      "h1" "CalledProcessError" [] [] false (by decide)).1 [],
   (C4_three_attempts_then_continue wHash wFetchIdx wParse "u" "p.conda"
      "h1" "CalledProcessError" [] [] false (by decide)).2.2.1 wfA wfA
      ⟨[("p.conda", ⟨"p", 2, "h1"⟩)], none⟩ (by decide) (by decide) rfl⟩

/-- A HEAD oracle on which every probe raises. -/
def wHeadNone : String → Option HeadResp := fun _ => none

/-- A HEAD oracle advertising content length 1 and last-modified 10,
matching `wfA`. -/
def wHead : String → Option HeadResp := fun _ => some ⟨some 1, some 10⟩

/-- Coins that always fall on the "skip the checksum" side. -/
def wCoins : Nat → Bool := fun _ => true

/-- **C8** (counterexample): a listing of two entries where the first has
a local copy and its HEAD probe raises: the whole scan aborts — the
probe is not retried even once and the second entry is never reached —
contradicting the claim that metadata errors are retried up to 3 times
before moving to the next entry. -/
theorem C8_counterexample :
    sync_installer wHash wFetchA wHeadNone wCoins "u"
      [("v3", "m3"), ("v2", "m2")] false [("v3", wfA)] = none := by
  decide

/-- **C8** (amended): in the listing syncer only errors fetching an
entry's bytes are retried (up to 3 times, after which the loop moves to
the next entry); an error during the per-file metadata probe (the HEAD
request for content-length / last-modified) is not guarded at all — it
aborts the scan and is surfaced to the caller. -/
theorem C8_byte_errors_retried_head_errors_fatal (hash : List Nat → String)
    (fetch : String → Option File) (head : String → Option HeadResp)
    (coins : Nat → Bool) (repo_url : String) (full_scan : Bool)
    (filename md5 : String) (rest : List (String × String)) (lfs : FS)
    (k : Nat) :
    (∀ fLocal : File, fsFind lfs filename = some fLocal →
      head (repo_url ++ "/" ++ filename) = none →
      sync_installer_loop hash fetch head coins repo_url full_scan
        ((filename, md5) :: rest) lfs k = none)
    ∧ (∀ (e : String) (lfs3 : FS) (evs : List Event) (k2 : Nat),
      attempt_err hash fetch (repo_url ++ "/" ++ filename) md5 = some e →
      fsFind lfs filename = none →
      sync_installer_loop hash fetch head coins repo_url full_scan rest
        (download_retry hash fetch lfs (repo_url ++ "/" ++ filename)
          filename filename (".downloading." ++ filename) md5 3).1 k =
        some (lfs3, evs, k2) →
      sync_installer_loop hash fetch head coins repo_url full_scan
          ((filename, md5) :: rest) lfs k =
        some (lfs3,
          [Event.startDL filename, Event.failLog filename e,
           Event.startDL filename, Event.failLog filename e,
           Event.startDL filename, Event.failLog filename e] ++ evs,
          k2)) := by
  constructor
  · intro fLocal hloc hhead
    exact sync_installer_loop_head_raise hash fetch head coins repo_url
      full_scan filename md5 rest lfs k fLocal hloc hhead
  · intro e lfs3 evs k2 hfail hloc hrest
    have h := sync_installer_loop_absent hash fetch head coins repo_url
      full_scan filename md5 rest lfs k lfs3 evs k2 hloc hrest
    rw [download_retry_fail hash fetch (repo_url ++ "/" ++ filename)
      filename filename (".downloading." ++ filename) md5 e hfail 3 lfs]
      at h
    exact h

theorem C8_witness :
    sync_installer_loop wHash wFetchA wHeadNone wCoins "u" false
      [("v3", "m3"), ("v2", "m2")] [("v3", wfA)] 0 = none
    ∧ sync_installer_loop wHash wFetchNone wHead wCoins "u" false
        [("v", "m")] [] 0 =
      some ((download_retry wHash wFetchNone [] ("u" ++ "/" ++ "v") "v" "v"
          (".downloading." ++ "v") "m" 3).1,
        [Event.startDL "v", Event.failLog "v" "CalledProcessError",
         Event.startDL "v", Event.failLog "v" "CalledProcessError",
         Event.startDL "v", Event.failLog "v" "CalledProcessError"] ++ [],
        0) :=
  ⟨(C8_byte_errors_retried_head_errors_fatal wHash wFetchA wHeadNone wCoins
      "u" false "v3" "m3" [("v2", "m2")] [("v3", wfA)] 0).1 wfA (by decide)
      rfl,
   (C8_byte_errors_retried_head_errors_fatal wHash wFetchNone wHead wCoins
      "u" false "v" "m" [] [] 0).2 "CalledProcessError"
      (download_retry wHash wFetchNone [] ("u" ++ "/" ++ "v") "v" "v"
        (".downloading." ++ "v") "m" 3).1 [] 0 (by decide) rfl rfl⟩

/-- **C3** (confirmed): the listing syncer judges an existing destination
file fresh exactly when (the remote size is unavailable OR equals the
local size) AND the local modification time equals the remote
last-modified AND (the sampling coin says skip the checksum OR the file's
MD5 matches the listed checksum); a fresh file is skipped and, in a
non-full-scan run, the scan stops immediately with the directory
unchanged: the returned trace holds no event — in particular no network
fetch — for any older entry. -/
theorem C3_freshness_definition_and_early_stop (hash : List Nat → String)
    (fetch : String → Option File) (head : String → Option HeadResp)
    (coins : Nat → Bool) (repo_url filename md5 : String)
    (rest : List (String × String)) (lfs : FS) (k : Nat) (fLocal : File)
    (r : HeadResp) (ts : Int)
    (hloc : fsFind lfs filename = some fLocal)
    (hhead : head (repo_url ++ "/" ++ filename) = some r)
    (hlm : r.lastModified = some ts)
    (hfresh : installer_fresh r.contentLength fLocal.bytes.length ts
      fLocal.mtime (coins k) (md5_check hash lfs filename md5) = true) :
    (∀ (cl : Option Nat) (ls : Nat) (rts mt : Int) (coin m : Bool),
      installer_fresh cl ls rts mt coin m = true ↔
        ((cl = none ∨ cl = some ls) ∧ rts = mt
          ∧ (coin = true ∨ m = true)))
    ∧ sync_installer_loop hash fetch head coins repo_url false
        ((filename, md5) :: rest) lfs k =
      some (lfs, [Event.headProbe filename, Event.skip filename,
        Event.stopScan], k + 1)
    ∧ (∀ ev ∈ [Event.headProbe filename, Event.skip filename,
        Event.stopScan], Event.isNetFetch ev = true →
        ev = Event.headProbe filename) := by
  refine ⟨?_, ?_, ?_⟩
  · intro cl ls rts mt coin m
    simp only [installer_fresh, Bool.and_eq_true, Bool.or_eq_true,
      beq_iff_eq, Option.isNone_iff_eq_none]
    tauto
  · exact sync_installer_loop_fresh_stop hash fetch head coins repo_url
      filename md5 rest lfs k fLocal r ts hloc hhead hlm hfresh
  · intro ev hev
    simp only [List.mem_cons, List.not_mem_nil, or_false] at hev
    rcases hev with rfl | rfl | rfl
    · exact fun _ => rfl
    · intro h; exact absurd h (by simp [Event.isNetFetch])
    · intro h; exact absurd h (by simp [Event.isNetFetch])

theorem C3_witness :
    sync_installer_loop wHash wFetchA wHead wCoins "u" false
      [("v3", "m3"), ("v2", "m2"), ("v1", "m1")] [("v3", wfA)] 0 =
    some ([("v3", wfA)], [Event.headProbe "v3", Event.skip "v3",
      Event.stopScan], 1) :=
  (C3_freshness_definition_and_early_stop wHash wFetchA wHead wCoins "u"
    "v3" "m3" [("v2", "m2"), ("v1", "m1")] [("v3", wfA)] 0 wfA
    ⟨some 1, some 10⟩ 10 (by decide) rfl rfl (by decide)).2.1

/-- **C10** (confirmed): in the indexed syncer every non-excluded index
entry's file name is recorded in the remote file list by the entry loop —
whatever its download outcome, since the append happens before the
download — and the prune step of the same run leaves that name's
destination untouched: pruning never deletes a file the current index
describes. -/
theorem C10_listed_entries_never_pruned (hash : List Nat → String)
    (fetch : String → Option File) (repo_url : String) (lfs tmp2 : FS)
    (pkgs : List (String × Meta)) (e : String × Meta)
    (he : e ∈ pkgs) (hexcl : ¬ e.2.name ∈ EXCLUDED_PACKAGES) :
    e.1 ∈ (pkgs.foldl (sync_repo_entry hash fetch repo_url)
      ⟨lfs, [], 0, []⟩).filelist
    ∧ fsFind (sync_repo_run hash fetch repo_url lfs tmp2 true pkgs).lfs
        e.1 =
      fsFind (publishIndexDocs tmp2 (pkgs.foldl
        (sync_repo_entry hash fetch repo_url) ⟨lfs, [], 0, []⟩).lfs).1.2
        e.1 := by
  have hmem := foldl_entry_filelist_mem hash fetch repo_url pkgs
    ⟨lfs, [], 0, []⟩ e he hexcl
  refine ⟨hmem, ?_⟩
  show fsFind (RepoSyncResult.lfs (sync_repo_run hash fetch repo_url lfs
    tmp2 true pkgs)) e.1 = _
  simp only [sync_repo_run, if_true]
  exact pruneStep_preserves_listed _ _ _ hmem

theorem C10_witness :
    "p.conda" ∈ ([("p.conda", (⟨"p", 2, "h1"⟩ : Meta))].foldl
      (sync_repo_entry wHash wFetchNone "u") ⟨[], [], 0, []⟩).filelist
    ∧ fsFind (sync_repo_run wHash wFetchNone "u" [] [] true
        [("p.conda", ⟨"p", 2, "h1"⟩)]).lfs "p.conda" =
      fsFind (publishIndexDocs []
        ([("p.conda", (⟨"p", 2, "h1"⟩ : Meta))].foldl
          (sync_repo_entry wHash wFetchNone "u")
          ⟨[], [], 0, []⟩).lfs).1.2 "p.conda" :=
  C10_listed_entries_never_pruned wHash wFetchNone "u" [] []
    [("p.conda", ⟨"p", 2, "h1"⟩)] ("p.conda", ⟨"p", 2, "h1"⟩)
    (List.mem_singleton_self _) (by decide)

/-! ## Lemmas about the assembled `sync_repo` run -/

theorem sync_repo_run_false (hash : List Nat → String)
    (fetch : String → Option File) (repo_url : String) (lfs tmp2 : FS)
    (pkgs : List (String × Meta)) :
    sync_repo_run hash fetch repo_url lfs tmp2 false pkgs =
      ⟨(publishIndexDocs tmp2 (pkgs.foldl
          (sync_repo_entry hash fetch repo_url) ⟨lfs, [], 0, []⟩).lfs).1.2,
       (publishIndexDocs tmp2 (pkgs.foldl
          (sync_repo_entry hash fetch repo_url) ⟨lfs, [], 0, []⟩).lfs).1.1,
       (pkgs.foldl (sync_repo_entry hash fetch repo_url)
          ⟨lfs, [], 0, []⟩).events ++
        (publishIndexDocs tmp2 (pkgs.foldl
          (sync_repo_entry hash fetch repo_url) ⟨lfs, [], 0, []⟩).lfs).2,
       (pkgs.foldl (sync_repo_entry hash fetch repo_url)
          ⟨lfs, [], 0, []⟩).total,
       (pkgs.foldl (sync_repo_entry hash fetch repo_url)
          ⟨lfs, [], 0, []⟩).filelist,
       none⟩ := rfl

theorem sync_repo_run_true (hash : List Nat → String)
    (fetch : String → Option File) (repo_url : String) (lfs tmp2 : FS)
    (pkgs : List (String × Meta)) :
    sync_repo_run hash fetch repo_url lfs tmp2 true pkgs =
      ⟨(pruneStep (publishIndexDocs tmp2 (pkgs.foldl
          (sync_repo_entry hash fetch repo_url) ⟨lfs, [], 0, []⟩).lfs).1.2
        (pkgs.foldl (sync_repo_entry hash fetch repo_url)
          ⟨lfs, [], 0, []⟩).filelist).1,
       (publishIndexDocs tmp2 (pkgs.foldl
          (sync_repo_entry hash fetch repo_url) ⟨lfs, [], 0, []⟩).lfs).1.1,
       (pkgs.foldl (sync_repo_entry hash fetch repo_url)
          ⟨lfs, [], 0, []⟩).events ++
        (publishIndexDocs tmp2 (pkgs.foldl
          (sync_repo_entry hash fetch repo_url) ⟨lfs, [], 0, []⟩).lfs).2 ++
        pruneEvents (publishIndexDocs tmp2 (pkgs.foldl
          (sync_repo_entry hash fetch repo_url) ⟨lfs, [], 0, []⟩).lfs).1.2
          (pkgs.foldl (sync_repo_entry hash fetch repo_url)
            ⟨lfs, [], 0, []⟩).filelist,
       (pkgs.foldl (sync_repo_entry hash fetch repo_url)
          ⟨lfs, [], 0, []⟩).total,
       (pkgs.foldl (sync_repo_entry hash fetch repo_url)
          ⟨lfs, [], 0, []⟩).filelist,
       some (pruneStep (publishIndexDocs tmp2 (pkgs.foldl
          (sync_repo_entry hash fetch repo_url) ⟨lfs, [], 0, []⟩).lfs).1.2
        (pkgs.foldl (sync_repo_entry hash fetch repo_url)
          ⟨lfs, [], 0, []⟩).filelist).2⟩ := rfl

theorem isPkgAction_not_publish (ev : Event)
    (h : Event.isPkgAction ev = true) : Event.isPublish ev = false := by
  cases ev <;> simp_all [Event.isPkgAction, Event.isPublish]

theorem isPublish_not_pkgAction (ev : Event)
    (h : Event.isPublish ev = true) : Event.isPkgAction ev = false := by
  cases ev <;> simp_all [Event.isPkgAction, Event.isPublish]

/-- The events past the entry loop — publications and prune deletions —
are never per-package actions. -/
theorem pruneEvents_not_pkgAction (lfs : FS) (rl : List String) :
    ∀ ev ∈ pruneEvents lfs rl, Event.isPkgAction ev = false := by
  intro ev hev
  obtain ⟨p, _, rfl⟩ := List.mem_map.mp hev
  rfl

/-- **C6** (confirmed): in an indexed sync run the index documents are
moved into the destination only after every package entry is processed —
witnessed by a split of the event trace with no publication before the
split and no per-package action after it — and once published, every
non-excluded listed package whose URL serves checksum-passing bytes is
present at the destination (the entry either skipped with the file
already there, or downloaded it successfully; later stages never remove
it). -/
theorem C6_index_published_after_all_entries (hash : List Nat → String)
    (fetch : String → Option File)
    (parse : List Nat → Option RepodataJson) (repo_url : String)
    (lfs tmpdir : FS) (delete : Bool) (res : RepoSyncResult)
    (fR fB : File) (rd : RepodataJson)
    (h1 : fetch (repo_url ++ "/repodata.json") = some fR)
    (h2 : fetch (repo_url ++ "/repodata.json.bz2") = some fB)
    (h3 : parse fR.bytes = some rd)
    (hres : sync_repo hash fetch parse repo_url lfs tmpdir delete =
      some res) :
    (∃ n : Nat,
      (∀ ev ∈ res.events.take n, Event.isPublish ev = false)
      ∧ (∀ ev ∈ res.events.drop n, Event.isPkgAction ev = false))
    ∧ (∀ (e : String × Meta) (f : File),
        e ∈ mergedPackages rd → ¬ e.2.name ∈ EXCLUDED_PACKAGES →
        fetch (repo_url ++ "/" ++ e.1) = some f →
        (e.2.md5 = "" ∨ hash f.bytes = e.2.md5) →
        ((mergedPackages rd).map Prod.fst).Nodup →
        (∀ p ∈ mergedPackages rd, ¬ e.1 = ".downloading." ++ p.1) →
        fsIsFile res.lfs e.1 = true) := by
  have hrun : some (sync_repo_run hash fetch repo_url lfs
      (repoTmpDir fetch repo_url tmpdir fR fB) delete
      (mergedPackages rd)) = some res := by
    rw [← hres]
    simp only [sync_repo, h1, h2, h3]
  have hreseq := (Option.some.inj hrun).symm
  obtain ⟨tail, hev, hpk⟩ := foldl_entry_events_append hash fetch repo_url
    (mergedPackages rd) ⟨lfs, [], 0, []⟩
  have hpk' : ∀ ev ∈ tail, Event.isPkgAction ev = true :=
    fun ev h => List.all_eq_true.mp hpk ev h
  constructor
  · refine ⟨tail.length, ?_, ?_⟩ <;> intro ev hmem
    · -- before the split: only entry-loop events, never a publication
      cases delete with
      | false =>
        rw [hreseq, sync_repo_run_false] at hmem
        simp only [hev, List.nil_append, List.append_assoc] at hmem
        rw [List.take_left] at hmem
        exact isPkgAction_not_publish ev (hpk' ev hmem)
      | true =>
        rw [hreseq, sync_repo_run_true] at hmem
        simp only [hev, List.nil_append, List.append_assoc] at hmem
        rw [List.take_left] at hmem
        exact isPkgAction_not_publish ev (hpk' ev hmem)
    · -- past the split: only publications and prune deletions
      cases delete with
      | false =>
        rw [hreseq, sync_repo_run_false] at hmem
        simp only [hev, List.nil_append, List.append_assoc] at hmem
        rw [List.drop_left] at hmem
        exact isPublish_not_pkgAction ev (publishIndexDocs_events _ _ ev
          hmem)
      | true =>
        rw [hreseq, sync_repo_run_true] at hmem
        simp only [hev, List.nil_append, List.append_assoc] at hmem
        rw [List.drop_left] at hmem
        rcases List.mem_append.mp hmem with hmem1 | hmem2
        · exact isPublish_not_pkgAction ev (publishIndexDocs_events _ _ ev
            hmem1)
        · exact pruneEvents_not_pkgAction _ _ ev hmem2
  · intro e f he hexcl hf hok hnodup hwip
    have hfold := foldl_entry_good_find hash fetch repo_url
      (mergedPackages rd) ⟨lfs, [], 0, []⟩ e f he hexcl hf hok hnodup hwip
    have hst : fsIsFile ((mergedPackages rd).foldl
        (sync_repo_entry hash fetch repo_url) ⟨lfs, [], 0, []⟩).lfs e.1 =
        true := by
      rcases hfold with hl | ⟨g, _, hr⟩
      · simp [fsIsFile, hl]
      · simp [fsIsFile, hr]
    have hpub := publishIndexDocs_isFile_mono
      (repoTmpDir fetch repo_url tmpdir fR fB) _ e.1 hst
    have hmem := foldl_entry_filelist_mem hash fetch repo_url
      (mergedPackages rd) ⟨lfs, [], 0, []⟩ e he hexcl
    cases delete with
    | false =>
      rw [hreseq, sync_repo_run_false]
      exact hpub
    | true =>
      rw [hreseq, sync_repo_run_true]
      show (fsFind (pruneStep _ _).1 e.1).isSome = true
      rw [pruneStep_preserves_listed _ _ _ hmem]
      exact hpub

/-- A remote serving both mandatory index documents and the single
package `p.conda`, whose bytes hash (under `wHash`) to the declared
checksum and whose length equals the declared size. -/
def wFetchGood : String → Option File := fun u =>
  if u = "u/repodata.json" then some wfA
  else if u = "u/repodata.json.bz2" then some wfA
  else if u = "u/p.conda" then some wfB
  else none

/-- The parsed index carried by `wFetchGood`'s repodata document. -/
def wRd : RepodataJson := ⟨[("p.conda", ⟨"p", 2, "hx"⟩)], none⟩

/-- A parse oracle returning `wRd`. -/
def wParseGood : List Nat → Option RepodataJson := fun _ => some wRd

theorem C6_witness :
    (∃ n : Nat,
      (∀ ev ∈ (sync_repo_run wHash wFetchGood "u" []
          (repoTmpDir wFetchGood "u" [] wfA wfA) false
          (mergedPackages wRd)).events.take n,
        Event.isPublish ev = false)
      ∧ (∀ ev ∈ (sync_repo_run wHash wFetchGood "u" []
          (repoTmpDir wFetchGood "u" [] wfA wfA) false
          (mergedPackages wRd)).events.drop n,
        Event.isPkgAction ev = false))
    ∧ fsIsFile (sync_repo_run wHash wFetchGood "u" []
        (repoTmpDir wFetchGood "u" [] wfA wfA) false
        (mergedPackages wRd)).lfs "p.conda" = true :=
  have h := C6_index_published_after_all_entries wHash wFetchGood
    wParseGood "u" [] [] false
    (sync_repo_run wHash wFetchGood "u" []
      (repoTmpDir wFetchGood "u" [] wfA wfA) false (mergedPackages wRd))
    wfA wfA wRd rfl rfl rfl rfl
  ⟨h.1, h.2 ("p.conda", ⟨"p", 2, "hx"⟩) wfB (by decide) (by decide) rfl
    (Or.inr (by decide)) (by decide) (by decide)⟩

theorem isPublish_not_startDL (ev : Event)
    (h : Event.isPublish ev = true) : Event.isStartDL ev = false := by
  cases ev <;> simp_all [Event.isPublish, Event.isStartDL]

theorem publishIndexDocs_filter_startDL (tmp lfs : FS) :
    (publishIndexDocs tmp lfs).2.filter Event.isStartDL = [] := by
  rw [List.filter_eq_nil_iff]
  intro ev hev
  rw [isPublish_not_startDL ev (publishIndexDocs_events tmp lfs ev hev)]
  exact Bool.false_ne_true

theorem pruneEvents_filter_startDL (lfs : FS) (rl : List String) :
    (pruneEvents lfs rl).filter Event.isStartDL = [] := by
  rw [List.filter_eq_nil_iff]
  intro ev hev
  obtain ⟨p, _, rfl⟩ := List.mem_map.mp hev
  simp [Event.isStartDL]

/-- **C9** (confirmed): running the indexed syncer twice against an
unchanged remote — one whose every non-excluded entry is served with
checksum-passing bytes of the declared size, so the first run has no
per-file failures — performs zero package downloads on the second run:
after the first run every non-excluded entry's local file has exactly the
declared size, so the second run's size comparison short-circuits every
entry to a skip and its trace holds no download event. -/
theorem C9_second_run_performs_zero_downloads (hash : List Nat → String)
    (fetch : String → Option File)
    (parse : List Nat → Option RepodataJson) (repo_url : String)
    (lfs tmpdir tmpdir2 : FS) (d1 d2 : Bool) (res1 res2 : RepoSyncResult)
    (fR fB : File) (rd : RepodataJson)
    (h1 : fetch (repo_url ++ "/repodata.json") = some fR)
    (h2 : fetch (repo_url ++ "/repodata.json.bz2") = some fB)
    (h3 : parse fR.bytes = some rd)
    (hgood : ∀ e ∈ mergedPackages rd, ¬ e.2.name ∈ EXCLUDED_PACKAGES →
      ∃ f, fetch (repo_url ++ "/" ++ e.1) = some f ∧
        (e.2.md5 = "" ∨ hash f.bytes = e.2.md5) ∧
        e.2.size = f.bytes.length)
    (hnodup : ((mergedPackages rd).map Prod.fst).Nodup)
    (hwip : ∀ e ∈ mergedPackages rd, ∀ p ∈ mergedPackages rd,
      ¬ e.1 = ".downloading." ++ p.1)
    (hdocs : ∀ e ∈ mergedPackages rd, ¬ "repodata.json" = e.1
      ∧ ¬ "repodata.json.bz2" = e.1 ∧ ¬ "current_repodata.json" = e.1)
    (hr1 : sync_repo hash fetch parse repo_url lfs tmpdir d1 = some res1)
    (hr2 : sync_repo hash fetch parse repo_url res1.lfs tmpdir2 d2 =
      some res2) :
    res2.events.filter Event.isStartDL = [] := by
  have hrun1 : some (sync_repo_run hash fetch repo_url lfs
      (repoTmpDir fetch repo_url tmpdir fR fB) d1 (mergedPackages rd)) =
      some res1 := by
    rw [← hr1]
    simp only [sync_repo, h1, h2, h3]
  have hres1 := (Option.some.inj hrun1).symm
  have hrun2 : some (sync_repo_run hash fetch repo_url res1.lfs
      (repoTmpDir fetch repo_url tmpdir2 fR fB) d2 (mergedPackages rd)) =
      some res2 := by
    rw [← hr2]
    simp only [sync_repo, h1, h2, h3]
  have hres2 := (Option.some.inj hrun2).symm
  have hQ : ∀ e ∈ mergedPackages rd, ¬ e.2.name ∈ EXCLUDED_PACKAGES →
      ∃ g, fsFind res1.lfs e.1 = some g ∧ e.2.size = g.bytes.length := by
    intro e he hexcl
    obtain ⟨f, hf, hok, hsz⟩ := hgood e he hexcl
    have hfold := foldl_entry_good_find hash fetch repo_url
      (mergedPackages rd) ⟨lfs, [], 0, []⟩ e f he hexcl hf hok hnodup
      (fun p hp => hwip e he p hp)
    have hstg : ∃ g, fsFind ((mergedPackages rd).foldl
        (sync_repo_entry hash fetch repo_url) ⟨lfs, [], 0, []⟩).lfs e.1 =
        some g ∧ e.2.size = g.bytes.length := by
      rcases hfold with hl | ⟨g, hgsz, hr⟩
      · exact ⟨f, hl, hsz⟩
      · exact ⟨g, hr, hgsz⟩
    obtain ⟨g, hgfind, hgsz⟩ := hstg
    obtain ⟨hd1, hd2, hd3⟩ := hdocs e he
    have hpub : fsFind (publishIndexDocs
        (repoTmpDir fetch repo_url tmpdir fR fB)
        ((mergedPackages rd).foldl (sync_repo_entry hash fetch repo_url)
          ⟨lfs, [], 0, []⟩).lfs).1.2 e.1 = some g := by
      rw [publishIndexDocs_find_ne _ _ _ hd1 hd2 hd3]
      exact hgfind
    have hmem := foldl_entry_filelist_mem hash fetch repo_url
      (mergedPackages rd) ⟨lfs, [], 0, []⟩ e he hexcl
    refine ⟨g, ?_, hgsz⟩
    cases d1 with
    | false =>
      rw [hres1, sync_repo_run_false]
      exact hpub
    | true =>
      rw [hres1, sync_repo_run_true]
      show fsFind (pruneStep _ _).1 e.1 = some g
      rw [pruneStep_preserves_listed _ _ _ hmem]
      exact hpub
  have hskip := foldl_entry_all_skip hash fetch repo_url
    (mergedPackages rd) ⟨res1.lfs, [], 0, []⟩ hQ
  have hskipev : ((mergedPackages rd).foldl
      (sync_repo_entry hash fetch repo_url)
      ⟨res1.lfs, [], 0, []⟩).events.filter Event.isStartDL = [] :=
    hskip.2
  rw [hres2]
  cases d2 with
  | false =>
    rw [sync_repo_run_false]
    show (((mergedPackages rd).foldl (sync_repo_entry hash fetch repo_url)
        ⟨res1.lfs, [], 0, []⟩).events ++ _).filter Event.isStartDL = []
    rw [List.filter_append, hskipev, publishIndexDocs_filter_startDL]
    rfl
  | true =>
    rw [sync_repo_run_true]
    show (((mergedPackages rd).foldl (sync_repo_entry hash fetch repo_url)
        ⟨res1.lfs, [], 0, []⟩).events ++ _ ++ _).filter Event.isStartDL
      = []
    rw [List.filter_append, List.filter_append, hskipev,
      publishIndexDocs_filter_startDL, pruneEvents_filter_startDL]
    rfl

/-- The result of the first concrete indexed sync against `wFetchGood`. -/
def wRun1 : RepoSyncResult :=
  sync_repo_run wHash wFetchGood "u" []
    (repoTmpDir wFetchGood "u" [] wfA wfA) false (mergedPackages wRd)

theorem C9_witness :
    (sync_repo_run wHash wFetchGood "u" wRun1.lfs
      (repoTmpDir wFetchGood "u" [] wfA wfA) false
      (mergedPackages wRd)).events.filter Event.isStartDL = [] :=
  C9_second_run_performs_zero_downloads wHash wFetchGood wParseGood "u"
    [] [] [] false false wRun1
    (sync_repo_run wHash wFetchGood "u" wRun1.lfs
      (repoTmpDir wFetchGood "u" [] wfA wfA) false (mergedPackages wRd))
    wfA wfA wRd rfl rfl rfl
    (by
      intro e he hexcl
      have hm : mergedPackages wRd =
          [("p.conda", (⟨"p", 2, "hx"⟩ : Meta))] := rfl
      rw [hm] at he
      have he' : e = ("p.conda", ⟨"p", 2, "hx"⟩) := by simpa using he
      subst he'
      exact ⟨wfB, rfl, Or.inr (by decide), by decide⟩)
    (by decide) (by decide) (by decide) rfl rfl

end Anaconda
